import Mathlib

/-!
EdgeAnalytics — verification of the analytics engine.

Shallow embedding of the trading-performance analytics core:

* `calculateEquityCurveStats` / `buildEquityCurveChartData`
  (src/lib/calculations/equity-curve-stats.ts),
* `alignEquityCurvesByDate` / `calculateEquityCurveCorrelationMatrix`
  (src/lib/calculations/equity-curve-correlation.ts and the duplicate
  union-based variant in src/unnamed/part_000),
* `alignDates` / `combineSuperBlock` (src/unnamed/part_001).

Modelling conventions:

* JS `Date` values are represented by their `getTime()` millisecond
  timestamp (an integer); the engine compares and sorts dates only
  through `getTime()`.  The chart builder's `getFullYear`/`getMonth`
  calendar projections are abstracted as parameters `yearOf`/`monthOf`.
* Finite JS numbers are represented by exact rationals `ℚ`.  `Math.sqrt`
  and the 252nd root inside the daily risk-free-rate conversion are
  irrational-valued, so they are abstracted as parameters: `sqrtQ : ℚ → ℚ`
  stands for `Math.sqrt`, and `dailyRiskFreeRate` stands for the source
  expression `(1 + riskFreeRate / 100) ^ (1 / 252) - 1`.
* Division by zero produces `Infinity`/`NaN` in JS.  For the one place
  the spec makes that observable — the `initialCapital` derivation and
  the quantities computed from it — the embedding uses the `JsNum` type
  of IEEE-style values (finite rational, `±Infinity`, `NaN`).  All other
  divisions in the engine are guarded by positivity checks in the
  source, so plain `ℚ` division is used there.
* JS plain-object records (string-keyed, insertion-ordered, last set
  wins) are represented by association lists via `recordSet`/`recordGet`.
-/

namespace EdgeAnalytics

/-- A `Date#getTime()` millisecond timestamp. -/
abbrev Timestamp := Int

/-- One equity-curve observation (`EquityCurveEntry` in the data model). -/
structure EquityCurveEntry where
  date : Timestamp
  dailyReturnPct : ℚ
  marginReq : ℚ
  accountValue : ℚ
  strategyName : String
deriving DecidableEq

/-- One daily-log observation, as consumed by `tradesToEquityCurve`.
`marginReq` is optional in the source (`log.marginReq || 0`). -/
structure DailyLogEntry where
  date : Timestamp
  accountValue : ℚ
  marginReq : Option ℚ
deriving DecidableEq

/-- The trade fields consumed by `tradesToEquityCurve`. -/
structure Trade where
  dateOpened : Timestamp
  dateClosed : Option Timestamp
  pl : ℚ
  fundsAtClose : ℚ
  marginReq : ℚ
deriving DecidableEq

/-- A JS double as observable by the engine: a finite value (kept exact
as a rational), an infinity, or `NaN`. -/
inductive JsNum where
  | num (q : ℚ)
  | posInf
  | negInf
  | nan
deriving DecidableEq

/-- JS division `a / b` on finite operands: division by zero produces
`±Infinity` (or `NaN` for `0 / 0`). -/
def jsDiv (a b : ℚ) : JsNum :=
  if b = 0 then (if a = 0 then .nan else if 0 < a then .posInf else .negInf)
  else .num (a / b)

/-- JS truthiness of a number: `0` and `NaN` are falsy, everything else
(including `±Infinity`) is truthy. -/
def JsNum.truthy : JsNum → Bool
  | .num q => q != 0
  | .posInf => true
  | .negInf => true
  | .nan => false

/-- JS subtraction `a - v` of a possibly-special value from a finite one. -/
def jsSubNum (a : ℚ) : JsNum → JsNum
  | .num b => .num (a - b)
  | .posInf => .negInf
  | .negInf => .posInf
  | .nan => .nan

/-- JS multiplication `v * b` of a possibly-special value by a finite one. -/
def jsMulNum : JsNum → ℚ → JsNum
  | .num a, b => .num (a * b)
  | .posInf, b => if 0 < b then .posInf else if b < 0 then .negInf else .nan
  | .negInf, b => if 0 < b then .negInf else if b < 0 then .posInf else .nan
  | .nan, _ => .nan

/-- `mean` from mathjs (only applied to non-empty lists in the source). -/
def qmean (xs : List ℚ) : ℚ := xs.sum / xs.length

/-- Sum of squared deviations from the mean. -/
def sumSqDev (xs : List ℚ) : ℚ := (xs.map (fun x => (x - qmean xs) ^ 2)).sum

/-- mathjs `variance(xs, 'uncorrected')`: squared errors divided by `n`. -/
def varUncorrected (xs : List ℚ) : ℚ := sumSqDev xs / xs.length

/-- mathjs `variance(xs, 'biased')`: squared errors divided by `n + 1`. -/
def varBiased (xs : List ℚ) : ℚ := sumSqDev xs / (xs.length + 1)

/-- `Math.max(...xs)` over a non-empty spread. -/
def listMax : List ℚ → ℚ
  | [] => 0
  | x :: rest => rest.foldl max x

/-- `Math.min(...xs)` over a non-empty spread. -/
def listMin : List ℚ → ℚ
  | [] => 0
  | x :: rest => rest.foldl min x

/-- `[...entries].sort((a, b) => a.date.getTime() - b.date.getTime())`:
a stable ascending sort on the timestamp (JS `Array#sort` is stable;
every stable sort by the same key computes the same list, so insertion
sort represents it faithfully). -/
def sortEntriesByDate (entries : List EquityCurveEntry) : List EquityCurveEntry :=
  List.insertionSort (fun a b => a.date ≤ b.date) entries

/-- `PortfolioStats` exactly as returned by `calculateEquityCurveStats`
(the commented-out fields of the source are omitted there too). -/
structure PortfolioStats where
  initialCapital : JsNum
  totalPl : JsNum
  netPl : JsNum
  totalTrades : Nat
  winningTrades : Nat
  losingTrades : Nat
  breakEvenTrades : Nat
  winRate : ℚ
  avgWin : JsNum
  avgLoss : JsNum
  maxWin : JsNum
  maxLoss : JsNum
  profitFactor : ℚ
  sharpeRatio : ℚ
  sortinoRatio : ℚ
  calmarRatio : ℚ
  maxDrawdown : ℚ
  avgDailyPl : JsNum
  totalCommissions : ℚ
deriving DecidableEq

/-- `createEmptyStats()`. -/
def createEmptyStats : PortfolioStats :=
  { initialCapital := .num 0
    totalPl := .num 0
    netPl := .num 0
    totalTrades := 0
    winningTrades := 0
    losingTrades := 0
    breakEvenTrades := 0
    winRate := 0
    avgWin := .num 0
    avgLoss := .num 0
    maxWin := .num 0
    maxLoss := .num 0
    profitFactor := 0
    sharpeRatio := 0
    sortinoRatio := 0
    calmarRatio := 0
    maxDrawdown := 0
    avgDailyPl := .num 0
    totalCommissions := 0 }

/-- State of the max-drawdown loop in `calculateEquityCurveStats`. -/
structure DrawdownState where
  maxDrawdown : ℚ
  maxDrawdownPct : ℚ
  highWaterMark : ℚ
  currentDrawdownStart : Option Timestamp
  maxDrawdownDuration : ℚ
deriving DecidableEq

/-- One iteration of the drawdown loop body. -/
def drawdownStep (s : DrawdownState) (e : EquityCurveEntry) : DrawdownState :=
  if s.highWaterMark < e.accountValue then
    let duration := match s.currentDrawdownStart with
      | some start =>
        let d := ((e.date - start : ℤ) : ℚ) / (1000 * 60 * 60 * 24)
        if s.maxDrawdownDuration < d then d else s.maxDrawdownDuration
      | none => s.maxDrawdownDuration
    { s with highWaterMark := e.accountValue
             currentDrawdownStart := none
             maxDrawdownDuration := duration }
  else
    let start := match s.currentDrawdownStart with
      | some t => some t
      | none => some e.date
    let drawdown := s.highWaterMark - e.accountValue
    let drawdownPct := drawdown / s.highWaterMark
    if s.maxDrawdownPct < drawdownPct then
      { s with currentDrawdownStart := start
               maxDrawdownPct := drawdownPct
               maxDrawdown := drawdown }
    else
      { s with currentDrawdownStart := start }

/-- The drawdown loop: the high-water mark is seeded with the first
sorted entry's account value and the loop then visits every entry
(the first one included, as in the source's `for` loop from index 0). -/
def drawdownScan (sorted : List EquityCurveEntry) : DrawdownState :=
  match sorted with
  | [] => { maxDrawdown := 0, maxDrawdownPct := 0, highWaterMark := 0
            currentDrawdownStart := none, maxDrawdownDuration := 0 }
  | e0 :: _ =>
    sorted.foldl drawdownStep
      { maxDrawdown := 0, maxDrawdownPct := 0, highWaterMark := e0.accountValue
        currentDrawdownStart := none, maxDrawdownDuration := 0 }

/-- The `initialCapital` derivation of `calculateEquityCurveStats`:
when the first sorted entry's `strategyName` is truthy (non-empty), the
source divides `accountValue` by `1 + dailyReturnPct` of the first
same-strategy entry and applies a `|| 10000` fallback (which fires on a
falsy quotient, i.e. `0` or `NaN`); when `strategyName` is falsy the raw
quotient of the first entry is used with no fallback. -/
def calcInitialCapital (sorted : List EquityCurveEntry) : JsNum :=
  match sorted with
  | [] => .nan
  | first :: _ =>
    if first.strategyName ≠ "" then
      let sameStrategy := sorted.filter (fun e => e.strategyName = first.strategyName)
      let q := match sameStrategy.head? with
        | some e => jsDiv e.accountValue (1 + e.dailyReturnPct)
        | none => .nan
      if q.truthy then q else .num 10000
    else
      jsDiv first.accountValue (1 + first.dailyReturnPct)

/-- `calculateEquityCurveStats(entries, riskFreeRate)`.  `sqrtQ` stands
for `Math.sqrt` and `dailyRiskFreeRate` for
`(1 + riskFreeRate / 100) ^ (1 / 252) - 1` (see the header).  The
source's `cumulativeReturns` accumulator is dead code (never read) and
is not modelled. -/
def calculateEquityCurveStats (sqrtQ : ℚ → ℚ) (dailyRiskFreeRate : ℚ)
    (entries : List EquityCurveEntry) : PortfolioStats :=
  if entries.length = 0 then createEmptyStats else
  let sortedEntries := sortEntriesByDate entries
  let dailyReturns := sortedEntries.map (·.dailyReturnPct)
  let initialCapital := calcInitialCapital sortedEntries
  let finalCapital := match sortedEntries.getLast? with
    | some e => e.accountValue
    | none => 0
  let dd := drawdownScan sortedEntries
  let dailyVolatility := if 1 < dailyReturns.length then sqrtQ (varUncorrected dailyReturns) else 0
  let avgDailyReturn := qmean dailyReturns
  let annualizedReturn := (1 + avgDailyReturn) ^ (252 : ℕ) - 1
  let excessDailyReturn := avgDailyReturn - dailyRiskFreeRate
  let sharpeRatio :=
    if 0 < dailyVolatility then excessDailyReturn / dailyVolatility * sqrtQ 252 else 0
  let downsideReturns := dailyReturns.filter (fun r => r < dailyRiskFreeRate)
  let downsideDeviation :=
    if 0 < downsideReturns.length then sqrtQ (varBiased downsideReturns) else 0
  let sortinoRatio :=
    if 0 < downsideDeviation then excessDailyReturn / downsideDeviation * sqrtQ 252 else 0
  let calmarRatio := if 0 < dd.maxDrawdownPct then annualizedReturn / dd.maxDrawdownPct else 0
  let winningDays := (dailyReturns.filter (fun r => 0 < r)).length
  let losingDays := (dailyReturns.filter (fun r => r < 0)).length
  let winRate := if 0 < dailyReturns.length then (winningDays : ℚ) / dailyReturns.length else 0
  let avgWin := if 0 < winningDays then (dailyReturns.filter (fun r => 0 < r)).sum / winningDays else 0
  let avgLoss := if 0 < losingDays then (dailyReturns.filter (fun r => r < 0)).sum / losingDays else 0
  let totalWins := (dailyReturns.filter (fun r => 0 < r)).sum
  let totalLosses := |(dailyReturns.filter (fun r => r < 0)).sum|
  let profitFactor := if 0 < totalLosses then totalWins / totalLosses else 0
  { initialCapital := initialCapital
    totalPl := jsSubNum finalCapital initialCapital
    netPl := jsSubNum finalCapital initialCapital
    totalTrades := dailyReturns.length
    winningTrades := winningDays
    losingTrades := losingDays
    breakEvenTrades := dailyReturns.length - winningDays - losingDays
    winRate := winRate
    avgWin := jsMulNum initialCapital avgWin
    avgLoss := jsMulNum initialCapital avgLoss
    maxWin := jsMulNum initialCapital (listMax dailyReturns)
    maxLoss := jsMulNum initialCapital (listMin dailyReturns)
    profitFactor := profitFactor
    sharpeRatio := sharpeRatio
    sortinoRatio := sortinoRatio
    calmarRatio := calmarRatio
    maxDrawdown := dd.maxDrawdown
    avgDailyPl := jsMulNum initialCapital (qmean dailyReturns)
    totalCommissions := 0 }

/-- JS plain-object record write `m[k] = v`: an existing key keeps its
position and gets the new value, a new key is appended (string keys keep
insertion order). -/
def recordSet {κ α : Type} [DecidableEq κ] (m : List (κ × α)) (k : κ) (v : α) :
    List (κ × α) :=
  if m.any (fun p => p.1 = k) then
    m.map (fun p => if p.1 = k then (k, v) else p)
  else
    m ++ [(k, v)]

/-- JS record read `m[k]` (`undefined` for a missing key). -/
def recordGet {κ α : Type} [DecidableEq κ] (m : List (κ × α)) (k : κ) : Option α :=
  (m.find? (fun p => p.1 = k)).map (·.2)

/-- One point of the chart builder's `equityCurve` series. -/
structure EquityPoint where
  date : Timestamp
  equity : ℚ
  highWaterMark : ℚ
  tradeNumber : Nat
deriving DecidableEq

/-- One point of the `rollingMetrics` series. -/
structure RollingPoint where
  date : Timestamp
  winRate : ℚ
  sharpeRatio : ℚ
  profitFactor : ℚ
  volatility : ℚ
deriving DecidableEq

/-- The `streakData.statistics` bundle. -/
structure StreakStatistics where
  maxWinStreak : Nat
  maxLossStreak : Nat
  avgWinStreak : ℚ
  avgLossStreak : ℚ
  currentStreak : Int
deriving DecidableEq

/-- `streakData`:  the two length-to-frequency histograms
(`Record<number, number>`, modelled as functions) plus the summary. -/
structure StreakData where
  winDistribution : Nat → Nat
  lossDistribution : Nat → Nat
  statistics : StreakStatistics

/-- `EquityCurveChartData`. -/
structure EquityCurveChartData where
  equityCurve : List EquityPoint
  drawdownData : List (Timestamp × ℚ)
  monthlyReturns : List (Int × List (Int × ℚ))
  monthlyReturnsPercent : List (Int × List (Int × ℚ))
  returnDistribution : List ℚ
  rollingMetrics : List RollingPoint
  streakData : Option StreakData

/-- State of the streak-scanning loop of `buildEquityCurveChartData`.
`winStreaks`/`lossStreaks` are the source's local arrays of flushed
streak lengths; each histogram bump pushes the same length there. -/
structure StreakState where
  winDistribution : Nat → Nat
  lossDistribution : Nat → Nat
  currentWinStreak : Nat
  currentLossStreak : Nat
  maxWinStreak : Nat
  maxLossStreak : Nat
  winStreaks : List Nat
  lossStreaks : List Nat

/-- Flush the open win streak (the `currentWinStreak > 0` blocks). -/
def flushWin (s : StreakState) : StreakState :=
  if 0 < s.currentWinStreak then
    { s with winDistribution := Function.update s.winDistribution
               s.currentWinStreak (s.winDistribution s.currentWinStreak + 1)
             winStreaks := s.winStreaks ++ [s.currentWinStreak]
             currentWinStreak := 0 }
  else s

/-- Flush the open loss streak (the `currentLossStreak > 0` blocks). -/
def flushLoss (s : StreakState) : StreakState :=
  if 0 < s.currentLossStreak then
    { s with lossDistribution := Function.update s.lossDistribution
               s.currentLossStreak (s.lossDistribution s.currentLossStreak + 1)
             lossStreaks := s.lossStreaks ++ [s.currentLossStreak]
             currentLossStreak := 0 }
  else s

/-- One iteration of the streak loop: a win flushes the loss streak and
extends the win streak (updating the running maximum), a loss mirrors
that, and a zero return flushes both open streaks. -/
def streakStep (s : StreakState) (returnPct : ℚ) : StreakState :=
  if 0 < returnPct then
    let s := flushLoss s
    { s with currentWinStreak := s.currentWinStreak + 1
             maxWinStreak := max s.maxWinStreak (s.currentWinStreak + 1) }
  else if returnPct < 0 then
    let s := flushWin s
    { s with currentLossStreak := s.currentLossStreak + 1
             maxLossStreak := max s.maxLossStreak (s.currentLossStreak + 1) }
  else
    flushLoss (flushWin s)

/-- The streak loop over the sorted daily returns. -/
def streakScan (s : StreakState) : List ℚ → StreakState
  | [] => s
  | r :: rest => streakScan (streakStep s r) rest

/-- The `// Add final streaks` block after the loop.  Unlike the
in-loop flushes it does not reset the counters, so `currentStreak` can
still be read off them afterwards. -/
def streakFinish (s : StreakState) : StreakState :=
  let s1 :=
    if 0 < s.currentWinStreak then
      { s with winDistribution := Function.update s.winDistribution
                 s.currentWinStreak (s.winDistribution s.currentWinStreak + 1)
               winStreaks := s.winStreaks ++ [s.currentWinStreak] }
    else s
  if 0 < s1.currentLossStreak then
    { s1 with lossDistribution := Function.update s1.lossDistribution
                s1.currentLossStreak (s1.lossDistribution s1.currentLossStreak + 1)
              lossStreaks := s1.lossStreaks ++ [s1.currentLossStreak] }
  else s1

/-- The initial streak state (empty histograms, zero counters). -/
def streakInit : StreakState :=
  { winDistribution := fun _ => 0
    lossDistribution := fun _ => 0
    currentWinStreak := 0
    currentLossStreak := 0
    maxWinStreak := 0
    maxLossStreak := 0
    winStreaks := []
    lossStreaks := [] }

/-- The equity-curve / high-water-mark loop of the chart builder. -/
def equityCurveLoop (hwm : ℚ) (i : Nat) : List EquityCurveEntry → List EquityPoint
  | [] => []
  | e :: rest =>
    let hwm := if hwm < e.accountValue then e.accountValue else hwm
    { date := e.date, equity := e.accountValue, highWaterMark := hwm,
      tradeNumber := i + 1 } :: equityCurveLoop hwm (i + 1) rest

/-- The drawdown-series loop of the chart builder. -/
def drawdownDataLoop (hwm : ℚ) : List EquityCurveEntry → List (Timestamp × ℚ)
  | [] => []
  | e :: rest =>
    let hwm := if hwm < e.accountValue then e.accountValue else hwm
    let drawdownPct := if 0 < hwm then (e.accountValue - hwm) / hwm * 100 else 0
    (e.date, drawdownPct) :: drawdownDataLoop hwm rest

/-- One step of the monthly-returns accumulation: bump the
`(year, month)` cell of both tables (missing cells start at 0). -/
def monthlyStep (yearOf monthOf : Timestamp → Int)
    (acc : List (Int × List (Int × ℚ)) × List (Int × List (Int × ℚ)))
    (e : EquityCurveEntry) :
    List (Int × List (Int × ℚ)) × List (Int × List (Int × ℚ)) :=
  let year := yearOf e.date
  let month := monthOf e.date + 1
  let bump := fun (m : List (Int × List (Int × ℚ))) (v : ℚ) =>
    let inner := (recordGet m year).getD []
    recordSet m year (recordSet inner month (((recordGet inner month).getD 0) + v))
  (bump acc.1 (e.accountValue * e.dailyReturnPct), bump acc.2 (e.dailyReturnPct * 100))

/-- The rolling 30-observation window metrics, one point per index `i`
from `windowSize - 1` on; each window is `sortedEntries.slice(i - 29, i + 1)`. -/
def rollingMetricsOf (sqrtQ : ℚ → ℚ) (sortedEntries : List EquityCurveEntry) :
    List RollingPoint :=
  let windowSize : Nat := 30
  (List.range sortedEntries.length).filterMap (fun i =>
    if windowSize - 1 ≤ i then
      match sortedEntries.get? i with
      | some ei =>
        let windowEntries := (sortedEntries.drop (i + 1 - windowSize)).take windowSize
        let windowReturns := windowEntries.map (·.dailyReturnPct)
        let winningDays := (windowReturns.filter (fun r => 0 < r)).length
        let winRate := (winningDays : ℚ) / windowReturns.length
        let avgReturn := qmean windowReturns
        let volatility := sqrtQ (varUncorrected windowReturns)
        let sharpeRatio := if 0 < volatility then avgReturn / volatility * sqrtQ 252 else 0
        let totalWins := (windowReturns.filter (fun r => 0 < r)).sum
        let totalLosses := |(windowReturns.filter (fun r => r < 0)).sum|
        let profitFactor := if 0 < totalLosses then totalWins / totalLosses else 0
        some { date := ei.date, winRate := winRate * 100, sharpeRatio := sharpeRatio,
               profitFactor := profitFactor, volatility := volatility * sqrtQ 252 * 100 }
      | none => none
    else none)

/-- `buildEquityCurveChartData(entries)`.  `sqrtQ` abstracts `Math.sqrt`
and `yearOf`/`monthOf` abstract `Date#getFullYear`/`Date#getMonth`
(see the header). -/
def buildEquityCurveChartData (sqrtQ : ℚ → ℚ) (yearOf monthOf : Timestamp → Int)
    (entries : List EquityCurveEntry) : EquityCurveChartData :=
  if entries.length = 0 then
    { equityCurve := []
      drawdownData := []
      monthlyReturns := []
      monthlyReturnsPercent := []
      returnDistribution := []
      rollingMetrics := []
      streakData := none }
  else
    let sortedEntries := sortEntriesByDate entries
    let hwm0 := match sortedEntries.head? with
      | some e => e.accountValue
      | none => 0
    let equityCurve := equityCurveLoop hwm0 0 sortedEntries
    let drawdownData := drawdownDataLoop hwm0 sortedEntries
    let monthly := sortedEntries.foldl (monthlyStep yearOf monthOf) ([], [])
    let returnDistribution := sortedEntries.map (fun e => e.dailyReturnPct * 100)
    let rollingMetrics := rollingMetricsOf sqrtQ sortedEntries
    let s := streakFinish (streakScan streakInit (sortedEntries.map (·.dailyReturnPct)))
    let avgWinStreak := if 0 < s.winStreaks.length then qmean (s.winStreaks.map (↑·)) else 0
    let avgLossStreak := if 0 < s.lossStreaks.length then qmean (s.lossStreaks.map (↑·)) else 0
    let currentStreak : Int :=
      if 0 < s.currentWinStreak then (s.currentWinStreak : Int)
      else if 0 < s.currentLossStreak then -(s.currentLossStreak : Int)
      else 0
    { equityCurve := equityCurve
      drawdownData := drawdownData
      monthlyReturns := monthly.1
      monthlyReturnsPercent := monthly.2
      returnDistribution := returnDistribution
      rollingMetrics := rollingMetrics
      streakData := some
        { winDistribution := s.winDistribution
          lossDistribution := s.lossDistribution
          statistics :=
            { maxWinStreak := s.maxWinStreak
              maxLossStreak := s.maxLossStreak
              avgWinStreak := avgWinStreak
              avgLossStreak := avgLossStreak
              currentStreak := currentStreak } } }

/-- Ascending, duplicate-free sort of timestamps:
`Array.from(new Set(ts)).sort((a, b) => a - b)`. -/
def sortedDedupInts (l : List Timestamp) : List Timestamp :=
  List.insertionSort (fun a b : Timestamp => a ≤ b) l.dedup

/-- A `Map<number, v>` filled by a `forEach`/`set` loop (later writes to
the same key overwrite the earlier value in place). -/
def mapOfList {α : Type} (l : List (Timestamp × α)) : List (Timestamp × α) :=
  l.foldl (fun m p => recordSet m p.1 p.2) []

namespace EquityCurveCorrelation

/-- The correlation matrix of src/lib/calculations/equity-curve-correlation.ts. -/
structure CorrelationMatrix where
  strategies : List String
  correlationData : List (List ℚ)
  dates : List Timestamp
  alignedReturns : List (String × List ℚ)

/-- `pearsonCorrelation(x, y)` (`sqrtQ` abstracts `Math.sqrt`). -/
def pearsonCorrelation (sqrtQ : ℚ → ℚ) (x y : List ℚ) : ℚ :=
  let n := x.length
  if n ≠ y.length ∨ n = 0 then 0 else
  let sumX := x.sum
  let sumY := y.sum
  let sumXY := ((x.zip y).map (fun p => p.1 * p.2)).sum
  let sumX2 := (x.map (fun v => v * v)).sum
  let sumY2 := (y.map (fun v => v * v)).sum
  let numerator := n * sumXY - sumX * sumY
  let denominator := sqrtQ ((n * sumX2 - sumX * sumX) * (n * sumY2 - sumY * sumY))
  if denominator = 0 then 0 else numerator / denominator

/-- The rank-assignment `while` loop of `getRanks`, walking the
value-sorted `(originalIndex, value)` pairs: each block of tied values
receives the average `(i + j - 1) / 2 + 1` of its rank positions. -/
def assignRanks (i : Nat) : List (Nat × ℚ) → List (Nat × ℚ)
  | [] => []
  | (idx, v) :: rest =>
    let tied := rest.takeWhile (fun p => p.2 = v)
    let j := i + 1 + tied.length
    let avgRank := ((i : ℚ) + (j : ℚ) - 1) / 2 + 1
    ((idx, v) :: tied).map (fun p => (p.1, avgRank)) ++ assignRanks j (rest.drop tied.length)
termination_by l => l.length
decreasing_by
  simp only [List.length_drop, List.length_cons]
  omega

/-- `getRanks(arr)`: ties receive the average of their rank positions. -/
def getRanks (arr : List ℚ) : List ℚ :=
  let indexed := List.insertionSort (fun a b : Nat × ℚ => a.2 ≤ b.2) arr.enum
  let assigned := assignRanks 0 indexed
  (List.range arr.length).map (fun k =>
    ((assigned.find? (fun p => p.1 = k)).map (·.2)).getD 0)

/-- `spearmanCorrelation(x, y)`: Pearson over the rank vectors. -/
def spearmanCorrelation (sqrtQ : ℚ → ℚ) (x y : List ℚ) : ℚ :=
  if x.length ≠ y.length ∨ x.length = 0 then 0
  else pearsonCorrelation sqrtQ (getRanks x) (getRanks y)

/-- The strategy keys of the `byStrategy` grouping, in first-occurrence
order (JS object string keys keep insertion order). -/
def strategiesOf (entries : List EquityCurveEntry) : List String :=
  (entries.map (·.strategyName)).dedup

/-- One strategy's group of the `byStrategy` record, date-sorted. -/
def strategyEntries (entries : List EquityCurveEntry) (s : String) :
    List EquityCurveEntry :=
  sortEntriesByDate (entries.filter (fun e => e.strategyName = s))

/-- The `dateReturns` map of one strategy (`Map#set` loop: last write
at a timestamp wins). -/
def dateReturnsOf (entries : List EquityCurveEntry) (s : String) :
    List (Timestamp × ℚ) :=
  mapOfList ((strategyEntries entries s).map (fun e => (e.date, e.dailyReturnPct)))

/-- `alignEquityCurvesByDate(entries)`: the common-dates (intersection)
alignment — the axis keeps only dates carried by every strategy. -/
def alignEquityCurvesByDate (entries : List EquityCurveEntry) :
    List Timestamp × List (String × List ℚ) :=
  let strategies := strategiesOf entries
  let sortedDates := sortedDedupInts (entries.map (·.date))
  let commonDates := sortedDates.filter (fun t =>
    strategies.all (fun s => (recordGet (dateReturnsOf entries s) t).isSome))
  let alignedReturns := strategies.map (fun s =>
    (s, commonDates.map (fun t => (recordGet (dateReturnsOf entries s) t).getD 0)))
  (commonDates, alignedReturns)

/-- The correlation method selector. -/
inductive CorrMethod where
  | pearson
  | spearman
deriving DecidableEq

/-- `calculateEquityCurveCorrelationMatrix(entries, method)`. -/
def calculateEquityCurveCorrelationMatrix (sqrtQ : ℚ → ℚ)
    (entries : List EquityCurveEntry) (method : CorrMethod) : CorrelationMatrix :=
  let aligned := alignEquityCurvesByDate entries
  let strategies := List.insertionSort (fun a b : String => a ≤ b) (aligned.2.map (·.1))
  let n := strategies.length
  let correlationData := (List.range n).map (fun i =>
    (List.range n).map (fun j =>
      if i = j then 1 else
        let returns1 := (recordGet aligned.2 (strategies.getD i "")).getD []
        let returns2 := (recordGet aligned.2 (strategies.getD j "")).getD []
        match method with
        | .pearson => pearsonCorrelation sqrtQ returns1 returns2
        | .spearman => spearmanCorrelation sqrtQ returns1 returns2))
  { strategies := strategies
    correlationData := correlationData
    dates := aligned.1
    alignedReturns := aligned.2 }

end EquityCurveCorrelation

namespace BlockCorrelation

/-!  The duplicate correlation module of src/unnamed/part_000.  Its
`alignEquityCurvesByDate` takes a record keyed by strategy, uses the
zero-filled union of all dates as the axis, and converts the stored
percentage returns to decimals (`dailyReturnPct / 100`). -/

/-- The matrix shape of the part_000 module. -/
structure CorrelationMatrix where
  strategies : List String
  correlationData : List (List ℚ)
  dates : List Timestamp
  alignedReturns : List (String × List ℚ)

/-- `calculateCorrelation(returns1, returns2)` of part_000. -/
def calculateCorrelation (sqrtQ : ℚ → ℚ) (returns1 returns2 : List ℚ) : ℚ :=
  if returns1.length ≠ returns2.length ∨ returns1.length = 0 then 0 else
  let n := returns1.length
  let mean1 := returns1.sum / n
  let mean2 := returns2.sum / n
  let diffs := (returns1.zip returns2).map (fun p => (p.1 - mean1, p.2 - mean2))
  let numerator := (diffs.map (fun d => d.1 * d.2)).sum
  let sum1Sq := (diffs.map (fun d => d.1 * d.1)).sum
  let sum2Sq := (diffs.map (fun d => d.2 * d.2)).sum
  let denominator := sqrtQ (sum1Sq * sum2Sq)
  if denominator = 0 then 0 else numerator / denominator

/-- part_000's `alignEquityCurvesByDate(entriesByStrategy)`:
the axis is the sorted union of all dates; a strategy missing a date
contributes return `0`; present returns are `dailyReturnPct / 100`. -/
def alignEquityCurvesByDate (entriesByStrategy : List (String × List EquityCurveEntry)) :
    List Timestamp × List (String × List ℚ) :=
  let strategies := entriesByStrategy.map (·.1)
  if strategies.length = 0 then ([], []) else
  let dates := sortedDedupInts
    ((entriesByStrategy.map (fun p => p.2.map (·.date))).flatten)
  let returnMap := fun s =>
    mapOfList ((((recordGet entriesByStrategy s).getD []).map
      (fun e => (e.date, e.dailyReturnPct / 100))))
  let alignedReturns := strategies.map (fun s =>
    (s, dates.map (fun t => (recordGet (returnMap s) t).getD 0)))
  (dates, alignedReturns)

/-- part_000's `calculateEquityCurveCorrelationMatrix(entriesByStrategy)`. -/
def calculateEquityCurveCorrelationMatrix (sqrtQ : ℚ → ℚ)
    (entriesByStrategy : List (String × List EquityCurveEntry)) : CorrelationMatrix :=
  let strategies := List.insertionSort (fun a b : String => a ≤ b) (entriesByStrategy.map (·.1))
  let n := strategies.length
  if n = 0 then
    { strategies := [], correlationData := [], dates := [], alignedReturns := [] }
  else
    let aligned := alignEquityCurvesByDate entriesByStrategy
    let correlationData := (List.range n).map (fun i =>
      (List.range n).map (fun j =>
        if i = j then 1 else
          calculateCorrelation sqrtQ
            ((recordGet aligned.2 (strategies.getD i "")).getD [])
            ((recordGet aligned.2 (strategies.getD j "")).getD [])))
    { strategies := strategies
      correlationData := correlationData
      dates := aligned.1
      alignedReturns := aligned.2 }

end BlockCorrelation

namespace SuperBlock

/-! The Super-Block combiner of src/unnamed/part_001. -/

/-- `DateAlignmentStrategy`. -/
inductive DateAlignmentStrategy where
  | intersection
  | union
  | earliestCommon
  | latestCommon
deriving DecidableEq

/-- `blockType` of a component. -/
inductive BlockType where
  | tradeBased
  | equityCurve
deriving DecidableEq

/-- One input component of `combineSuperBlock`. -/
structure Component where
  blockId : String
  blockName : String
  blockType : BlockType
  trades : Option (List Trade)
  dailyLogs : Option (List DailyLogEntry)
  equityCurveEntries : Option (List EquityCurveEntry)
  weight : Option ℚ

/-- One point of the combined curve. -/
structure CombinedEquityCurve where
  date : Timestamp
  combinedAccountValue : ℚ
  componentValues : List (String × ℚ)
  combinedReturn : ℚ
  combinedMarginReq : ℚ
deriving DecidableEq

/-- The `SuperBlockData` result. -/
structure SuperBlockData where
  combinedEquityCurve : List CombinedEquityCurve
  portfolioStats : PortfolioStats
  componentStats : List (String × PortfolioStats)
  dateRangeStart : Timestamp
  dateRangeEnd : Timestamp
  alignmentWarnings : List String

/-- Does every component's date list carry the timestamp `t`?
(`components.every(c => datesByComponent[c].some(d => d.getTime() === t))`). -/
def commonToAll (datesByComponent : List (String × List Timestamp)) (t : Timestamp) :
    Bool :=
  (datesByComponent.map (·.1)).all (fun c =>
    ((recordGet datesByComponent c).getD []).any (fun d => d = t))

/-- `alignDates(datesByComponent, strategy)`, returning the aligned axis
and the warnings.  In the `latest-common` branch the source reverses the
(mutable) sorted array, finds the last common date, reverses it back and
filters; the net effect modelled here is a filter of the ascending axis. -/
def alignDates (datesByComponent : List (String × List Timestamp))
    (strategy : DateAlignmentStrategy) : List Timestamp × List String :=
  let components := datesByComponent.map (·.1)
  if components.length = 0 then ([], ["No components to align"]) else
  let sortedAllDates := sortedDedupInts
    ((datesByComponent.map (·.2)).flatten)
  match strategy with
  | .intersection =>
    let alignedDates := sortedAllDates.filter (commonToAll datesByComponent)
    let warnings :=
      if alignedDates.length = 0 then
        ["No overlapping dates found across all components"]
      else if (alignedDates.length : ℚ) < (sortedAllDates.length : ℚ) / 2 then
        ["Limited date overlap: " ++ toString alignedDates.length ++ " of " ++
          toString sortedAllDates.length ++ " total dates"]
      else []
    (alignedDates, warnings)
  | .union =>
    (sortedAllDates, ["Using forward-fill for missing dates in some components"])
  | .earliestCommon =>
    match sortedAllDates.find? (commonToAll datesByComponent) with
    | none => ([], ["No common start date found"])
    | some firstCommonDate =>
      (sortedAllDates.filter (fun d => firstCommonDate ≤ d), [])
  | .latestCommon =>
    match sortedAllDates.reverse.find? (commonToAll datesByComponent) with
    | none => ([], ["No common end date found"])
    | some lastCommonDate =>
      (sortedAllDates.filter (fun d => d ≤ lastCommonDate), [])

/-- The daily-log branch of `tradesToEquityCurve`: consecutive-day
percentage changes over the sorted logs (0 for the first day).  The
unguarded JS division is modelled by total `ℚ` division; none of the
verified claims exercises a zero previous account value. -/
def logsToEquityCurve (componentName : String) (logs : List DailyLogEntry) :
    List EquityCurveEntry :=
  let sortedLogs := List.insertionSort (fun a b : DailyLogEntry => a.date ≤ b.date) logs
  sortedLogs.enum.map (fun p =>
    let log := p.2
    let dailyReturn := match sortedLogs.get? (p.1 - 1) with
      | some prevLog =>
        if p.1 = 0 then 0
        else (log.accountValue - prevLog.accountValue) / prevLog.accountValue
      | none => 0
    { date := log.date
      dailyReturnPct := dailyReturn
      marginReq := log.marginReq.getD 0
      accountValue := log.accountValue
      strategyName := componentName })

/-- The trade-list branch of `tradesToEquityCurve`: a running capital
accumulated trade by trade from `fundsAtClose - pl` of the first trade. -/
def tradesLoop (componentName : String) (currentCapital previousCapital : ℚ) :
    List Trade → List EquityCurveEntry
  | [] => []
  | trade :: rest =>
    let currentCapital := currentCapital + trade.pl
    let dailyReturn :=
      if 0 < previousCapital then (currentCapital - previousCapital) / previousCapital
      else 0
    { date := trade.dateClosed.getD trade.dateOpened
      dailyReturnPct := dailyReturn
      marginReq := trade.marginReq / currentCapital
      accountValue := currentCapital
      strategyName := componentName } :: tradesLoop componentName currentCapital currentCapital rest

/-- `tradesToEquityCurve(trades, componentName, dailyLogs)`. -/
def tradesToEquityCurve (trades : List Trade) (componentName : String)
    (dailyLogs : Option (List DailyLogEntry)) : List EquityCurveEntry :=
  match dailyLogs with
  | some logs =>
    if 0 < logs.length then logsToEquityCurve componentName logs
    else
      tradesToEquityCurveFromTrades trades componentName
  | none => tradesToEquityCurveFromTrades trades componentName
where
  /-- The fall-back path constructing the curve from the sorted trades. -/
  tradesToEquityCurveFromTrades (trades : List Trade) (componentName : String) :
      List EquityCurveEntry :=
    let sortedTrades := List.insertionSort (fun a b : Trade => a.dateOpened ≤ b.dateOpened) trades
    match sortedTrades with
    | [] => []
    | t0 :: _ =>
      let initialCapital := t0.fundsAtClose - t0.pl
      tradesLoop componentName initialCapital initialCapital sortedTrades

/-- The `componentCurves` record: equity-curve components contribute
their entries, trade-based ones their converted curve, and components
with a missing payload are skipped. -/
def componentCurvesOf (components : List Component) :
    List (String × List EquityCurveEntry) :=
  components.foldl (fun m c =>
    match c.blockType, c.equityCurveEntries with
    | .equityCurve, some entries => recordSet m c.blockName entries
    | _, _ =>
      match c.blockType, c.trades with
      | .tradeBased, some trades =>
        recordSet m c.blockName (tradesToEquityCurve trades c.blockName c.dailyLogs)
      | _, _ => m) []

/-- `datesByComponent`: each component's date list, sorted ascending. -/
def datesByComponentOf (componentCurves : List (String × List EquityCurveEntry)) :
    List (String × List Timestamp) :=
  componentCurves.map (fun p =>
    (p.1, List.insertionSort (fun a b : Timestamp => a ≤ b) (p.2.map (·.date))))

/-- `valuesByComponent`: per component, the timestamp-to-entry map. -/
def valuesByComponentOf (componentCurves : List (String × List EquityCurveEntry)) :
    List (String × List (Timestamp × EquityCurveEntry)) :=
  componentCurves.map (fun p => (p.1, mapOfList (p.2.map (fun e => (e.date, e)))))

/-- The loop-local accumulators of one date of the combination walk:
the `componentValues` record, the summed account value and margin, the
forward-fill count and the `lastKnownValues` record. -/
structure DayAccum where
  componentValues : List (String × ℚ)
  value : ℚ
  marginReq : ℚ
  missing : Nat
  lastKnown : List (String × EquityCurveEntry)

/-- The body of the per-date `componentNames.forEach`: a component with
a real observation contributes it and refreshes its last-known value; a
component without one but with a last-known value is forward-filled
(counted in `missing`); a component that has never reported contributes
nothing. -/
def combineDateFold (values : List (String × List (Timestamp × EquityCurveEntry)))
    (t : Timestamp) (acc : DayAccum) : List String → DayAccum
  | [] => acc
  | name :: rest =>
    let acc' :=
      match recordGet ((recordGet values name).getD []) t with
      | some entry =>
        { componentValues := recordSet acc.componentValues name entry.accountValue
          value := acc.value + entry.accountValue
          marginReq := acc.marginReq + entry.marginReq
          missing := acc.missing
          lastKnown := recordSet acc.lastKnown name entry }
      | none =>
        match recordGet acc.lastKnown name with
        | some entry =>
          { componentValues := recordSet acc.componentValues name entry.accountValue
            value := acc.value + entry.accountValue
            marginReq := acc.marginReq + entry.marginReq
            missing := acc.missing + 1
            lastKnown := acc.lastKnown }
        | none => acc
    combineDateFold values t acc' rest

/-- The whole `componentNames.forEach` of one aligned date. -/
def combineDateStep (values : List (String × List (Timestamp × EquityCurveEntry)))
    (componentNames : List String) (lastKnown : List (String × EquityCurveEntry))
    (t : Timestamp) : DayAccum :=
  combineDateFold values t
    { componentValues := [], value := 0, marginReq := 0, missing := 0,
      lastKnown := lastKnown } componentNames

/-- The main combination walk over the aligned dates: dates needing a
forward-fill are skipped until a first point has been emitted; the
day-over-day combined return is 0 for the first emitted point. -/
def combineLoop (values : List (String × List (Timestamp × EquityCurveEntry)))
    (componentNames : List String) (lastKnown : List (String × EquityCurveEntry))
    (acc : List CombinedEquityCurve) :
    List Timestamp → List CombinedEquityCurve
  | [] => acc
  | t :: rest =>
    let day := combineDateStep values componentNames lastKnown t
    if 0 < day.missing ∧ acc.length = 0 then
      combineLoop values componentNames day.lastKnown acc rest
    else
      let combinedReturn := match acc.getLast? with
        | some prev => (day.value - prev.combinedAccountValue) / prev.combinedAccountValue
        | none => 0
      combineLoop values componentNames day.lastKnown
        (acc ++ [{ date := t
                   combinedAccountValue := day.value
                   componentValues := day.componentValues
                   combinedReturn := combinedReturn
                   combinedMarginReq := day.marginReq / componentNames.length }]) rest

/-- `combineSuperBlock(components, alignment)`.  Raises (returns
`.error`) exactly on the zero-aligned-dates fatal path.  `sqrtQ` and
`dailyRiskFreeRate` are threaded to the statistics calculator (the
source calls it with its default 2.0% risk-free rate). -/
def combineSuperBlock (sqrtQ : ℚ → ℚ) (dailyRiskFreeRate : ℚ)
    (components : List Component) (alignment : DateAlignmentStrategy) :
    Except String SuperBlockData :=
  let componentCurves := componentCurvesOf components
  let datesByComponent := datesByComponentOf componentCurves
  let alignedDates := (alignDates datesByComponent alignment).1
  let alignmentWarnings := (alignDates datesByComponent alignment).2
  if alignedDates.length = 0 then
    .error "No aligned dates found - cannot combine blocks"
  else
    let values := valuesByComponentOf componentCurves
    let componentNames := componentCurves.map (·.1)
    let combined := combineLoop values componentNames [] [] alignedDates
    let combinedEntries := combined.map (fun c =>
      { date := c.date
        dailyReturnPct := c.combinedReturn
        marginReq := c.combinedMarginReq
        accountValue := c.combinedAccountValue
        strategyName := "Combined" })
    let portfolioStats := calculateEquityCurveStats sqrtQ dailyRiskFreeRate combinedEntries
    let componentStats := componentCurves.map (fun p =>
      (p.1, calculateEquityCurveStats sqrtQ dailyRiskFreeRate p.2))
    .ok
      { combinedEquityCurve := combined
        portfolioStats := portfolioStats
        componentStats := componentStats
        dateRangeStart := alignedDates.headD 0
        dateRangeEnd := alignedDates.getLastD 0
        alignmentWarnings := alignmentWarnings }

end SuperBlock

/-! ## Shared helper lemmas -/

theorem length_filter_pos_add_neg_le (xs : List ℚ) :
    (xs.filter (fun r => decide (0 < r))).length +
      (xs.filter (fun r => decide (r < 0))).length ≤ xs.length := by
  induction xs with
  | nil => simp
  | cons x xs ih =>
    by_cases h1 : (0 : ℚ) < x
    · have h2 : ¬ x < 0 := by linarith
      simp [List.filter_cons, h1, h2]
      omega
    · by_cases h2 : x < 0 <;> simp [List.filter_cons, h1, h2] <;> omega

theorem sortEntriesByDate_length (entries : List EquityCurveEntry) :
    (sortEntriesByDate entries).length = entries.length :=
  List.length_insertionSort _ entries

theorem sortEntriesByDate_perm (entries : List EquityCurveEntry) :
    (sortEntriesByDate entries).Perm entries :=
  List.perm_insertionSort _ entries

/-! ## Claim-side specification definitions -/

/-- The claim's Sortino formula: downside deviation as the *population*
(`n`-normalized) standard deviation of the returns strictly below the
daily risk-free rate. -/
def sortinoRatioPopulationSpec (sqrtQ : ℚ → ℚ) (dailyRiskFreeRate : ℚ)
    (returns : List ℚ) : ℚ :=
  let downside := returns.filter (fun r => r < dailyRiskFreeRate)
  let dd := if 0 < downside.length then sqrtQ (varUncorrected downside) else 0
  if 0 < dd then (qmean returns - dailyRiskFreeRate) / dd * sqrtQ 252 else 0

/-- The Sortino formula the source actually computes: downside deviation
as the mathjs `'biased'` (`n + 1`-normalized) standard deviation of the
returns strictly below the daily risk-free rate. -/
def sortinoRatioBiasedSpec (sqrtQ : ℚ → ℚ) (dailyRiskFreeRate : ℚ)
    (returns : List ℚ) : ℚ :=
  let downside := returns.filter (fun r => r < dailyRiskFreeRate)
  let dd := if 0 < downside.length then sqrtQ (varBiased downside) else 0
  if 0 < dd then (qmean returns - dailyRiskFreeRate) / dd * sqrtQ 252 else 0

/-! ## Sample data used by concrete instances -/

/-- Component "A" with a single observation at date 1. -/
def sampleComponentA : SuperBlock.Component :=
  { blockId := "a", blockName := "A", blockType := .equityCurve, trades := none,
    dailyLogs := none,
    equityCurveEntries := some
      [{ date := 1, dailyReturnPct := 0, marginReq := 0, accountValue := 100,
         strategyName := "A" }],
    weight := none }

/-- Component "B" with a single observation at date 2 (disjoint from "A"). -/
def sampleComponentB : SuperBlock.Component :=
  { blockId := "b", blockName := "B", blockType := .equityCurve, trades := none,
    dailyLogs := none,
    equityCurveEntries := some
      [{ date := 2, dailyReturnPct := 0, marginReq := 0, accountValue := 50,
         strategyName := "B" }],
    weight := none }

/-- The three-day series refuting the population-deviation reading of
the Sortino ratio. -/
def sortinoSampleEntries : List EquityCurveEntry :=
  [{ date := 0, dailyReturnPct := 1/10, marginReq := 0, accountValue := 100,
     strategyName := "Alpha" },
   { date := 1, dailyReturnPct := -1/10, marginReq := 0, accountValue := 90,
     strategyName := "Alpha" },
   { date := 2, dailyReturnPct := -1/5, marginReq := 0, accountValue := 80,
     strategyName := "Alpha" }]

/-! ## C1 — empty input -/

/-- C1: for the empty input list, `calculateEquityCurveStats` returns a
`PortfolioStats` with every numeric field equal to 0 and
`buildEquityCurveChartData` returns a result in which every collection
is empty; both functions are total on that input (the embedding is a
total function, matching the source's throw-free early return). -/
theorem empty_input_all_zero_stats_and_empty_chart
    (sqrtQ : ℚ → ℚ) (dailyRiskFreeRate : ℚ) (yearOf monthOf : Timestamp → Int) :
    calculateEquityCurveStats sqrtQ dailyRiskFreeRate [] =
      { initialCapital := .num 0, totalPl := .num 0, netPl := .num 0,
        totalTrades := 0, winningTrades := 0, losingTrades := 0,
        breakEvenTrades := 0, winRate := 0, avgWin := .num 0, avgLoss := .num 0,
        maxWin := .num 0, maxLoss := .num 0, profitFactor := 0, sharpeRatio := 0,
        sortinoRatio := 0, calmarRatio := 0, maxDrawdown := 0,
        avgDailyPl := .num 0, totalCommissions := 0 } ∧
    buildEquityCurveChartData sqrtQ yearOf monthOf [] =
      { equityCurve := [], drawdownData := [], monthlyReturns := [],
        monthlyReturnsPercent := [], returnDistribution := [],
        rollingMetrics := [], streakData := none } :=
  ⟨rfl, rfl⟩

/-! ## C10 — count partition invariant -/

/-- C10: `totalTrades` equals the number of input entries and
`winningTrades + losingTrades + breakEvenTrades = totalTrades`, with
`winningTrades`/`losingTrades` counting the entries with strictly
positive / strictly negative daily return. -/
theorem stats_count_partition (sqrtQ : ℚ → ℚ) (dailyRiskFreeRate : ℚ)
    (entries : List EquityCurveEntry) :
    (calculateEquityCurveStats sqrtQ dailyRiskFreeRate entries).totalTrades
        = entries.length ∧
    (calculateEquityCurveStats sqrtQ dailyRiskFreeRate entries).winningTrades +
        (calculateEquityCurveStats sqrtQ dailyRiskFreeRate entries).losingTrades +
        (calculateEquityCurveStats sqrtQ dailyRiskFreeRate entries).breakEvenTrades
        = (calculateEquityCurveStats sqrtQ dailyRiskFreeRate entries).totalTrades ∧
    (calculateEquityCurveStats sqrtQ dailyRiskFreeRate entries).winningTrades
        = (entries.filter (fun e => 0 < e.dailyReturnPct)).length ∧
    (calculateEquityCurveStats sqrtQ dailyRiskFreeRate entries).losingTrades
        = (entries.filter (fun e => e.dailyReturnPct < 0)).length := by
  by_cases h : entries.length = 0
  · have h0 : entries = [] := List.length_eq_zero.mp h
    subst h0
    refine ⟨rfl, rfl, rfl, rfl⟩
  · have hperm := sortEntriesByDate_perm entries
    have hwin : (((sortEntriesByDate entries).map (·.dailyReturnPct)).filter
          (fun r => decide (0 < r))).length
        = (entries.filter (fun e => 0 < e.dailyReturnPct)).length := by
      rw [List.filter_map, List.length_map, ← List.countP_eq_length_filter,
        ← List.countP_eq_length_filter]
      exact hperm.countP_eq _
    have hloss : (((sortEntriesByDate entries).map (·.dailyReturnPct)).filter
          (fun r => decide (r < 0))).length
        = (entries.filter (fun e => e.dailyReturnPct < 0)).length := by
      rw [List.filter_map, List.length_map, ← List.countP_eq_length_filter,
        ← List.countP_eq_length_filter]
      exact hperm.countP_eq _
    have hlen : ((sortEntriesByDate entries).map (·.dailyReturnPct)).length
        = entries.length := by
      rw [List.length_map, sortEntriesByDate_length]
    have hle := length_filter_pos_add_neg_le
      ((sortEntriesByDate entries).map (·.dailyReturnPct))
    simp only [calculateEquityCurveStats, h, if_false]
    refine ⟨hlen, ?_, hwin, hloss⟩
    omega

/-! ## C6 — initial-capital derivation (corrected) -/

/-- C6 (amended): `initialCapital` is `accountValue / (1 + dailyReturnPct)`
of the first entry in date-sorted order; when the first entry's
`strategyName` is non-empty the default 10000 is substituted exactly
when that quotient is falsy (`0` or `NaN`) — a divide-by-zero with a
non-zero numerator yields `±Infinity` (truthy, no fallback), and with an
empty `strategyName` no fallback is applied at all. -/
theorem initialCapital_from_first_sorted_entry (sqrtQ : ℚ → ℚ)
    (dailyRiskFreeRate : ℚ) (entries : List EquityCurveEntry)
    (first : EquityCurveEntry)
    (h : (sortEntriesByDate entries).head? = some first) :
    (calculateEquityCurveStats sqrtQ dailyRiskFreeRate entries).initialCapital =
      (if first.strategyName ≠ "" ∧
          (jsDiv first.accountValue (1 + first.dailyReturnPct)).truthy = false then
        JsNum.num 10000
      else jsDiv first.accountValue (1 + first.dailyReturnPct)) := by
  obtain ⟨rest, hrest⟩ : ∃ rest, sortEntriesByDate entries = first :: rest := by
    cases hs : sortEntriesByDate entries with
    | nil => rw [hs] at h; exact absurd h (by simp)
    | cons a t =>
      rw [hs] at h
      simp only [List.head?_cons, Option.some.injEq] at h
      exact ⟨t, by rw [h]⟩
  have hne : ¬ entries.length = 0 := by
    intro h0
    have : entries = [] := List.length_eq_zero.mp h0
    subst this
    simp [sortEntriesByDate] at hrest
  have hfilter : ((first :: rest).filter
      (fun e => decide (e.strategyName = first.strategyName))).head? = some first := by
    simp [List.filter_cons]
  simp only [calculateEquityCurveStats, hne, if_false]
  rw [hrest]
  simp only [calcInitialCapital, hfilter]
  by_cases hs : first.strategyName = ""
  · simp [hs]
  · by_cases ht : (jsDiv first.accountValue (1 + first.dailyReturnPct)).truthy
    · simp [hs, ht]
    · simp [hs, ht]

/-- C6 witness: the amended statement applied at a one-entry list. -/
theorem initialCapital_from_first_sorted_entry_witness :
    (sortEntriesByDate
        [{ date := 0, dailyReturnPct := 1/100, marginReq := 0, accountValue := 101,
           strategyName := "Alpha" }]).head? = some
      { date := 0, dailyReturnPct := 1/100, marginReq := 0, accountValue := 101,
        strategyName := "Alpha" } ∧
    (calculateEquityCurveStats (fun q => q) 0
        [{ date := 0, dailyReturnPct := 1/100, marginReq := 0, accountValue := 101,
           strategyName := "Alpha" }]).initialCapital =
      (if ("Alpha" : String) ≠ "" ∧ (jsDiv 101 (1 + 1/100)).truthy = false then
        JsNum.num 10000
      else jsDiv 101 (1 + 1/100)) :=
  ⟨by simp [sortEntriesByDate, List.insertionSort, List.orderedInsert],
    initialCapital_from_first_sorted_entry (fun q => q) 0
      [{ date := 0, dailyReturnPct := 1/100, marginReq := 0, accountValue := 101,
         strategyName := "Alpha" }]
      { date := 0, dailyReturnPct := 1/100, marginReq := 0, accountValue := 101,
        strategyName := "Alpha" }
      (by simp [sortEntriesByDate, List.insertionSort, List.orderedInsert])⟩

/-- C6 counterexample: a −100% first-day return (division by zero with a
non-zero account value) produces `Infinity`, not the claimed 10000
fallback — `Infinity` is truthy, so `|| 10000` does not fire. -/
theorem initialCapital_divide_by_zero_is_not_fallback :
    (calculateEquityCurveStats (fun q => q) 0
        [{ date := 0, dailyReturnPct := -1, marginReq := 0, accountValue := 100,
           strategyName := "Alpha" }]).initialCapital = JsNum.posInf ∧
      JsNum.posInf ≠ JsNum.num 10000 :=
  ⟨by norm_num [calculateEquityCurveStats, calcInitialCapital, sortEntriesByDate,
      List.insertionSort, List.orderedInsert, List.filter, jsDiv, JsNum.truthy],
    by decide⟩

/-! ## C7 — Sortino downside deviation (corrected) -/

/-- C7 (amended): the Sortino ratio of `calculateEquityCurveStats` is
`(excess / downsideDeviation) × √252` (0 when the downside subset is
empty or the deviation is not positive), where the downside deviation is
the mathjs `'biased'` standard deviation — sum of squared deviations
divided by `n + 1`, not the population `n` — of the daily returns
strictly below the daily risk-free rate. -/
theorem sortino_uses_biased_downside_deviation (sqrtQ : ℚ → ℚ)
    (dailyRiskFreeRate : ℚ) (entries : List EquityCurveEntry)
    (h : entries ≠ []) :
    (calculateEquityCurveStats sqrtQ dailyRiskFreeRate entries).sortinoRatio =
      sortinoRatioBiasedSpec sqrtQ dailyRiskFreeRate
        ((sortEntriesByDate entries).map (·.dailyReturnPct)) := by
  have hne : ¬ entries.length = 0 := by
    simpa [List.length_eq_zero] using h
  simp only [calculateEquityCurveStats, hne, if_false]
  rfl

/-- C7 witness: the amended statement applied at a concrete series. -/
theorem sortino_uses_biased_downside_deviation_witness :
    sortinoSampleEntries ≠ [] ∧
    (calculateEquityCurveStats (fun q => q) 0 sortinoSampleEntries).sortinoRatio =
      sortinoRatioBiasedSpec (fun q => q) 0
        ((sortEntriesByDate sortinoSampleEntries).map (·.dailyReturnPct)) :=
  ⟨by decide, sortino_uses_biased_downside_deviation (fun q => q) 0 _ (by decide)⟩

/-- C7 counterexample: on `[0.1, −0.1, −0.2]` with a zero daily
risk-free rate the source computes Sortino −10080 (deviation normalized
by `n + 1 = 3`) while the claimed population normalization (`n = 2`)
gives −6720; the two disagree.  (The square root is instantiated with
the identity map: the two variances `1/600` and `1/400` already differ,
and the real square root is injective on distinct non-negative values,
so the disagreement carries over to IEEE `Math.sqrt`.) -/
theorem sortino_population_deviation_refuted :
    (calculateEquityCurveStats (fun q => q) 0 sortinoSampleEntries).sortinoRatio
        = -10080 ∧
    sortinoRatioPopulationSpec (fun q => q) 0
        ((sortEntriesByDate sortinoSampleEntries).map (·.dailyReturnPct)) = -6720 ∧
    (calculateEquityCurveStats (fun q => q) 0 sortinoSampleEntries).sortinoRatio ≠
      sortinoRatioPopulationSpec (fun q => q) 0
        ((sortEntriesByDate sortinoSampleEntries).map (·.dailyReturnPct)) := by
  have hcode : (calculateEquityCurveStats (fun q => q) 0
      sortinoSampleEntries).sortinoRatio = -10080 := by
    norm_num [calculateEquityCurveStats, sortinoSampleEntries, sortEntriesByDate,
      List.insertionSort, List.orderedInsert, List.filter, qmean, sumSqDev,
      varBiased]
  have hspec : sortinoRatioPopulationSpec (fun q => q) 0
      ((sortEntriesByDate sortinoSampleEntries).map (·.dailyReturnPct)) = -6720 := by
    norm_num [sortinoRatioPopulationSpec, sortinoSampleEntries, sortEntriesByDate,
      List.insertionSort, List.orderedInsert, List.filter, qmean, sumSqDev,
      varUncorrected]
  refine ⟨hcode, hspec, ?_⟩
  rw [hcode, hspec]
  norm_num

/-! ## C3 — streak scan (spec-side run decomposition and lemmas) -/

/-- Claim-side win-streak decomposition, following the claim's wording:
a strictly positive return extends the open win streak, any other return
closes (flushes) it, and a streak still open after the last entry is
flushed.  `current` is the length of the open streak. -/
def specWinRuns (current : Nat) : List ℚ → List Nat
  | [] => if 0 < current then [current] else []
  | r :: rest =>
    if 0 < r then specWinRuns (current + 1) rest
    else if 0 < current then current :: specWinRuns 0 rest
    else specWinRuns 0 rest

/-- Claim-side loss-streak decomposition (mirror of `specWinRuns`). -/
def specLossRuns (current : Nat) : List ℚ → List Nat
  | [] => if 0 < current then [current] else []
  | r :: rest =>
    if r < 0 then specLossRuns (current + 1) rest
    else if 0 < current then current :: specLossRuns 0 rest
    else specLossRuns 0 rest

/-- Length of the trailing block of strictly positive returns. -/
def trailingPosLen (returns : List ℚ) : Nat :=
  (returns.reverse.takeWhile (fun r => decide (0 < r))).length

/-- Length of the trailing block of strictly negative returns. -/
def trailingNegLen (returns : List ℚ) : Nat :=
  (returns.reverse.takeWhile (fun r => decide (r < 0))).length

/-- Claim-side current streak: the signed length of the active trailing
win or loss streak, 0 when neither is open. -/
def specCurrentStreak (returns : List ℚ) : Int :=
  if 0 < trailingPosLen returns then (trailingPosLen returns : Int)
  else if 0 < trailingNegLen returns then -(trailingNegLen returns : Int)
  else 0

theorem streakFinish_winStreaks (s : StreakState) :
    (streakFinish s).winStreaks =
      if 0 < s.currentWinStreak then s.winStreaks ++ [s.currentWinStreak]
      else s.winStreaks := by
  unfold streakFinish
  by_cases h : 0 < s.currentWinStreak <;>
    by_cases h2 : 0 < s.currentLossStreak <;> simp [h, h2]

theorem streakFinish_lossStreaks (s : StreakState) :
    (streakFinish s).lossStreaks =
      if 0 < s.currentLossStreak then s.lossStreaks ++ [s.currentLossStreak]
      else s.lossStreaks := by
  unfold streakFinish
  by_cases h : 0 < s.currentWinStreak <;>
    by_cases h2 : 0 < s.currentLossStreak <;> simp [h, h2]

theorem streakFinish_winDistribution (s : StreakState) :
    (streakFinish s).winDistribution =
      if 0 < s.currentWinStreak then
        Function.update s.winDistribution s.currentWinStreak
          (s.winDistribution s.currentWinStreak + 1)
      else s.winDistribution := by
  unfold streakFinish
  by_cases h : 0 < s.currentWinStreak <;>
    by_cases h2 : 0 < s.currentLossStreak <;> simp [h, h2]

theorem streakFinish_lossDistribution (s : StreakState) :
    (streakFinish s).lossDistribution =
      if 0 < s.currentLossStreak then
        Function.update s.lossDistribution s.currentLossStreak
          (s.lossDistribution s.currentLossStreak + 1)
      else s.lossDistribution := by
  unfold streakFinish
  by_cases h : 0 < s.currentWinStreak <;>
    by_cases h2 : 0 < s.currentLossStreak <;> simp [h, h2]

theorem streakFinish_counters (s : StreakState) :
    (streakFinish s).currentWinStreak = s.currentWinStreak ∧
    (streakFinish s).currentLossStreak = s.currentLossStreak ∧
    (streakFinish s).maxWinStreak = s.maxWinStreak ∧
    (streakFinish s).maxLossStreak = s.maxLossStreak := by
  unfold streakFinish
  by_cases h : 0 < s.currentWinStreak <;>
    by_cases h2 : 0 < s.currentLossStreak <;> simp [h, h2]

theorem scanFinish_winStreaks (rs : List ℚ) : ∀ s : StreakState,
    (streakFinish (streakScan s rs)).winStreaks =
      s.winStreaks ++ specWinRuns s.currentWinStreak rs := by
  induction rs with
  | nil =>
    intro s
    rw [show streakScan s [] = s from rfl, streakFinish_winStreaks]
    by_cases h : 0 < s.currentWinStreak <;> simp [h, specWinRuns]
  | cons r rest ih =>
    intro s
    rw [show streakScan s (r :: rest) = streakScan (streakStep s r) rest from rfl, ih]
    by_cases hr : 0 < r
    · by_cases hl : 0 < s.currentLossStreak <;>
        simp [streakStep, flushLoss, hr, hl, specWinRuns]
    · by_cases hw : 0 < s.currentWinStreak
      · by_cases hr2 : r < 0
        · simp [streakStep, flushWin, hr, hr2, hw, specWinRuns]
        · by_cases hl : 0 < s.currentLossStreak <;>
            simp [streakStep, flushWin, flushLoss, hr, hr2, hw, hl, specWinRuns]
      · have hcw0 : s.currentWinStreak = 0 := by omega
        by_cases hr2 : r < 0
        · simp [streakStep, flushWin, hr, hr2, hw, hcw0, specWinRuns]
        · by_cases hl : 0 < s.currentLossStreak <;>
            simp [streakStep, flushWin, flushLoss, hr, hr2, hw, hcw0, hl, specWinRuns]

theorem scanFinish_lossStreaks (rs : List ℚ) : ∀ s : StreakState,
    (streakFinish (streakScan s rs)).lossStreaks =
      s.lossStreaks ++ specLossRuns s.currentLossStreak rs := by
  induction rs with
  | nil =>
    intro s
    rw [show streakScan s [] = s from rfl, streakFinish_lossStreaks]
    by_cases h : 0 < s.currentLossStreak <;> simp [h, specLossRuns]
  | cons r rest ih =>
    intro s
    rw [show streakScan s (r :: rest) = streakScan (streakStep s r) rest from rfl, ih]
    by_cases hr2 : r < 0
    · have hr : ¬ 0 < r := by linarith
      by_cases hw : 0 < s.currentWinStreak <;>
        simp [streakStep, flushWin, hr, hr2, hw, specLossRuns]
    · by_cases hl : 0 < s.currentLossStreak
      · by_cases hr : 0 < r
        · simp [streakStep, flushLoss, hr, hr2, hl, specLossRuns]
        · by_cases hw : 0 < s.currentWinStreak <;>
            simp [streakStep, flushWin, flushLoss, hr, hr2, hw, hl, specLossRuns]
      · have hcl0 : s.currentLossStreak = 0 := by omega
        by_cases hr : 0 < r
        · simp [streakStep, flushLoss, hr, hr2, hl, hcl0, specLossRuns]
        · by_cases hw : 0 < s.currentWinStreak <;>
            simp [streakStep, flushWin, flushLoss, hr, hr2, hw, hcl0, hl, specLossRuns]

theorem scanFinish_winDistribution (rs : List ℚ) : ∀ s : StreakState,
    (streakFinish (streakScan s rs)).winDistribution =
      fun k => s.winDistribution k + (specWinRuns s.currentWinStreak rs).count k := by
  induction rs with
  | nil =>
    intro s
    rw [show streakScan s [] = s from rfl, streakFinish_winDistribution]
    by_cases h : 0 < s.currentWinStreak
    · funext k
      by_cases hk : k = s.currentWinStreak <;>
        simp [h, hk, Function.update, specWinRuns, List.count_cons]
    · funext k
      simp [h, specWinRuns]
  | cons r rest ih =>
    intro s
    rw [show streakScan s (r :: rest) = streakScan (streakStep s r) rest from rfl, ih]
    by_cases hr : 0 < r
    · by_cases hl : 0 < s.currentLossStreak <;>
        simp [streakStep, flushLoss, hr, hl, specWinRuns]
    · by_cases hr2 : r < 0
      · by_cases hw : 0 < s.currentWinStreak
        · funext k
          by_cases hk : k = s.currentWinStreak <;>
            simp [streakStep, flushWin, hr, hr2, hw, hk, Function.update,
              specWinRuns, List.count_cons] <;> omega
        · have hcw0 : s.currentWinStreak = 0 := by omega
          funext k
          simp [streakStep, flushWin, hr, hr2, hw, hcw0, specWinRuns]
      · by_cases hw : 0 < s.currentWinStreak
        · funext k
          by_cases hk : k = s.currentWinStreak <;>
            by_cases hl : 0 < s.currentLossStreak <;>
            simp [streakStep, flushWin, flushLoss, hr, hr2, hw, hk, hl,
              Function.update, specWinRuns, List.count_cons] <;> omega
        · have hcw0 : s.currentWinStreak = 0 := by omega
          funext k
          by_cases hl : 0 < s.currentLossStreak <;>
            simp [streakStep, flushWin, flushLoss, hr, hr2, hw, hcw0, hl, specWinRuns]

theorem scanFinish_lossDistribution (rs : List ℚ) : ∀ s : StreakState,
    (streakFinish (streakScan s rs)).lossDistribution =
      fun k => s.lossDistribution k + (specLossRuns s.currentLossStreak rs).count k := by
  induction rs with
  | nil =>
    intro s
    rw [show streakScan s [] = s from rfl, streakFinish_lossDistribution]
    by_cases h : 0 < s.currentLossStreak
    · funext k
      by_cases hk : k = s.currentLossStreak <;>
        simp [h, hk, Function.update, specLossRuns, List.count_cons]
    · funext k
      simp [h, specLossRuns]
  | cons r rest ih =>
    intro s
    rw [show streakScan s (r :: rest) = streakScan (streakStep s r) rest from rfl, ih]
    by_cases hr : 0 < r
    · have hr2 : ¬ r < 0 := by linarith
      by_cases hl : 0 < s.currentLossStreak
      · funext k
        by_cases hk : k = s.currentLossStreak <;>
          simp [streakStep, flushLoss, hr, hr2, hl, hk, Function.update,
            specLossRuns, List.count_cons] <;> omega
      · have hcl0 : s.currentLossStreak = 0 := by omega
        funext k
        simp [streakStep, flushLoss, hr, hr2, hl, hcl0, specLossRuns]
    · by_cases hr2 : r < 0
      · by_cases hw : 0 < s.currentWinStreak <;>
          simp [streakStep, flushWin, hr, hr2, hw, specLossRuns]
      · by_cases hl : 0 < s.currentLossStreak
        · funext k
          by_cases hk : k = s.currentLossStreak <;>
            by_cases hw : 0 < s.currentWinStreak <;>
            simp [streakStep, flushWin, flushLoss, hr, hr2, hw, hk, hl,
              Function.update, specLossRuns, List.count_cons] <;> omega
        · have hcl0 : s.currentLossStreak = 0 := by omega
          funext k
          by_cases hw : 0 < s.currentWinStreak <;>
            simp [streakStep, flushWin, flushLoss, hr, hr2, hw, hcl0, hl, specLossRuns]

theorem le_foldr_max_specWinRuns (rs : List ℚ) : ∀ c : Nat,
    c ≤ (specWinRuns c rs).foldr max 0 := by
  induction rs with
  | nil =>
    intro c
    by_cases h : 0 < c <;> simp [specWinRuns, h] <;> omega
  | cons r rest ih =>
    intro c
    by_cases hr : 0 < r
    · have := ih (c + 1)
      simp only [specWinRuns, hr, if_true]
      omega
    · by_cases hc : 0 < c
      · simp [specWinRuns, hr, hc]
      · have hc0 : c = 0 := by omega
        subst hc0
        simp [specWinRuns, hr]

theorem le_foldr_max_specLossRuns (rs : List ℚ) : ∀ c : Nat,
    c ≤ (specLossRuns c rs).foldr max 0 := by
  induction rs with
  | nil =>
    intro c
    by_cases h : 0 < c <;> simp [specLossRuns, h] <;> omega
  | cons r rest ih =>
    intro c
    by_cases hr : r < 0
    · have := ih (c + 1)
      simp only [specLossRuns, hr, if_true]
      omega
    · by_cases hc : 0 < c
      · simp [specLossRuns, hr, hc]
      · have hc0 : c = 0 := by omega
        subst hc0
        simp [specLossRuns, hr]

theorem scan_maxWinStreak (rs : List ℚ) : ∀ s : StreakState,
    s.currentWinStreak ≤ s.maxWinStreak →
    (streakScan s rs).maxWinStreak =
      max s.maxWinStreak ((specWinRuns s.currentWinStreak rs).foldr max 0) := by
  induction rs with
  | nil =>
    intro s h
    rw [show streakScan s [] = s from rfl]
    by_cases hc : 0 < s.currentWinStreak <;> simp [specWinRuns, hc] <;> omega
  | cons r rest ih =>
    intro s h
    rw [show streakScan s (r :: rest) = streakScan (streakStep s r) rest from rfl]
    by_cases hr : 0 < r
    · by_cases hl : 0 < s.currentLossStreak <;>
      · have hstep : (streakStep s r).currentWinStreak ≤ (streakStep s r).maxWinStreak := by
          simp [streakStep, flushLoss, hr, hl]
        rw [ih _ hstep]
        have hle := le_foldr_max_specWinRuns rest (s.currentWinStreak + 1)
        have hcw : (streakStep s r).currentWinStreak = s.currentWinStreak + 1 := by
          simp [streakStep, flushLoss, hr, hl]
        have hmw : (streakStep s r).maxWinStreak =
            max s.maxWinStreak (s.currentWinStreak + 1) := by
          simp [streakStep, flushLoss, hr, hl]
        rw [hcw, hmw]
        simp only [specWinRuns, hr, if_true]
        omega
    · have hcw : (streakStep s r).currentWinStreak = 0 := by
        by_cases hr2 : r < 0 <;>
          by_cases hw : 0 < s.currentWinStreak <;>
          by_cases hl : 0 < s.currentLossStreak <;>
          simp [streakStep, flushWin, flushLoss, hr, hr2, hw, hl] <;> omega
      have hmw : (streakStep s r).maxWinStreak = s.maxWinStreak := by
        by_cases hr2 : r < 0 <;>
          by_cases hw : 0 < s.currentWinStreak <;>
          by_cases hl : 0 < s.currentLossStreak <;>
          simp [streakStep, flushWin, flushLoss, hr, hr2, hw, hl]
      rw [ih _ (by rw [hcw]; omega), hcw, hmw]
      by_cases hw : 0 < s.currentWinStreak <;> simp [specWinRuns, hr, hw] <;> omega

theorem scan_maxLossStreak (rs : List ℚ) : ∀ s : StreakState,
    s.currentLossStreak ≤ s.maxLossStreak →
    (streakScan s rs).maxLossStreak =
      max s.maxLossStreak ((specLossRuns s.currentLossStreak rs).foldr max 0) := by
  induction rs with
  | nil =>
    intro s h
    rw [show streakScan s [] = s from rfl]
    by_cases hc : 0 < s.currentLossStreak <;> simp [specLossRuns, hc] <;> omega
  | cons r rest ih =>
    intro s h
    rw [show streakScan s (r :: rest) = streakScan (streakStep s r) rest from rfl]
    by_cases hr2 : r < 0
    · have hr : ¬ 0 < r := by linarith
      by_cases hw : 0 < s.currentWinStreak <;>
      · have hstep : (streakStep s r).currentLossStreak ≤ (streakStep s r).maxLossStreak := by
          simp [streakStep, flushWin, hr, hr2, hw]
        rw [ih _ hstep]
        have hle := le_foldr_max_specLossRuns rest (s.currentLossStreak + 1)
        have hcl : (streakStep s r).currentLossStreak = s.currentLossStreak + 1 := by
          simp [streakStep, flushWin, hr, hr2, hw]
        have hml : (streakStep s r).maxLossStreak =
            max s.maxLossStreak (s.currentLossStreak + 1) := by
          simp [streakStep, flushWin, hr, hr2, hw]
        rw [hcl, hml]
        simp only [specLossRuns, hr2, if_true]
        omega
    · have hcl : (streakStep s r).currentLossStreak = 0 := by
        by_cases hr : 0 < r <;>
          by_cases hw : 0 < s.currentWinStreak <;>
          by_cases hl : 0 < s.currentLossStreak <;>
          simp [streakStep, flushWin, flushLoss, hr, hr2, hw, hl] <;> omega
      have hml : (streakStep s r).maxLossStreak = s.maxLossStreak := by
        by_cases hr : 0 < r <;>
          by_cases hw : 0 < s.currentWinStreak <;>
          by_cases hl : 0 < s.currentLossStreak <;>
          simp [streakStep, flushWin, flushLoss, hr, hr2, hw, hl]
      rw [ih _ (by rw [hcl]; omega), hcl, hml]
      by_cases hl : 0 < s.currentLossStreak <;> simp [specLossRuns, hr2, hl] <;> omega

theorem length_takeWhile_eq_iff_all {p : ℚ → Bool} : ∀ l : List ℚ,
    ((l.takeWhile p).length = l.length ↔ l.all p) := by
  intro l
  induction l with
  | nil => simp
  | cons x rest ih =>
    by_cases hp : p x
    · simp [List.takeWhile_cons, hp, ih]
    · simp [List.takeWhile_cons, hp]

theorem trailingPosLen_of_all {rs : List ℚ}
    (h : rs.all (fun r => decide (0 < r)) = true) :
    trailingPosLen rs = rs.length := by
  have h2 : rs.reverse.all (fun r => decide (0 < r)) = true := by
    rwa [List.all_reverse]
  have h3 := (length_takeWhile_eq_iff_all rs.reverse).mpr h2
  simpa [trailingPosLen] using h3

theorem trailingNegLen_of_all {rs : List ℚ}
    (h : rs.all (fun r => decide (r < 0)) = true) :
    trailingNegLen rs = rs.length := by
  have h2 : rs.reverse.all (fun r => decide (r < 0)) = true := by
    rwa [List.all_reverse]
  have h3 := (length_takeWhile_eq_iff_all rs.reverse).mpr h2
  simpa [trailingNegLen] using h3

theorem trailingPosLen_cons (r : ℚ) (rest : List ℚ) :
    trailingPosLen (r :: rest) =
      if rest.all (fun x => decide (0 < x)) ∧ 0 < r then rest.length + 1
      else trailingPosLen rest := by
  unfold trailingPosLen
  rw [List.reverse_cons, List.takeWhile_append]
  by_cases hall : rest.all (fun x => decide (0 < x)) = true
  · have hlen : (rest.reverse.takeWhile (fun x => decide (0 < x))).length
        = rest.reverse.length :=
      (length_takeWhile_eq_iff_all _).mpr (by rwa [List.all_reverse])
    rw [if_pos (by simpa using hlen)]
    by_cases hr : 0 < r
    · simp [hall, hr, List.takeWhile_cons]
    · simp only [List.takeWhile_cons, hr, decide_False]
      simp [hall, hr, trailingPosLen, trailingNegLen, hlen, List.length_reverse]
  · have hlen : ¬ (rest.reverse.takeWhile (fun x => decide (0 < x))).length
        = rest.reverse.length := by
      rw [length_takeWhile_eq_iff_all, List.all_reverse]
      simpa using hall
    rw [if_neg (by simpa using hlen)]
    simp [hall]

theorem trailingNegLen_cons (r : ℚ) (rest : List ℚ) :
    trailingNegLen (r :: rest) =
      if rest.all (fun x => decide (x < 0)) ∧ r < 0 then rest.length + 1
      else trailingNegLen rest := by
  unfold trailingNegLen
  rw [List.reverse_cons, List.takeWhile_append]
  by_cases hall : rest.all (fun x => decide (x < 0)) = true
  · have hlen : (rest.reverse.takeWhile (fun x => decide (x < 0))).length
        = rest.reverse.length :=
      (length_takeWhile_eq_iff_all _).mpr (by rwa [List.all_reverse])
    rw [if_pos (by simpa using hlen)]
    by_cases hr : r < 0
    · simp [hall, hr, List.takeWhile_cons]
    · simp only [List.takeWhile_cons, hr, decide_False]
      simp [hall, hr, trailingPosLen, trailingNegLen, hlen, List.length_reverse]
  · have hlen : ¬ (rest.reverse.takeWhile (fun x => decide (x < 0))).length
        = rest.reverse.length := by
      rw [length_takeWhile_eq_iff_all, List.all_reverse]
      simpa using hall
    rw [if_neg (by simpa using hlen)]
    simp [hall]

theorem scan_currentWinStreak (rs : List ℚ) : ∀ s : StreakState,
    (streakScan s rs).currentWinStreak =
      if rs.all (fun r => decide (0 < r)) then s.currentWinStreak + rs.length
      else trailingPosLen rs := by
  induction rs with
  | nil =>
    intro s
    simp [streakScan]
  | cons r rest ih =>
    intro s
    rw [show streakScan s (r :: rest) = streakScan (streakStep s r) rest from rfl, ih]
    by_cases hr : 0 < r
    · have hcw : (streakStep s r).currentWinStreak = s.currentWinStreak + 1 := by
        by_cases hl : 0 < s.currentLossStreak <;> simp [streakStep, flushLoss, hr, hl]
      rw [hcw]
      by_cases hall : rest.all (fun x => decide (0 < x)) = true
      · simp [List.all_cons, hall, hr]
        omega
      · rw [trailingPosLen_cons]
        simp [List.all_cons, hall, hr]
    · have hcw : (streakStep s r).currentWinStreak = 0 := by
        by_cases hr2 : r < 0 <;>
          by_cases hw : 0 < s.currentWinStreak <;>
          by_cases hl : 0 < s.currentLossStreak <;>
          simp [streakStep, flushWin, flushLoss, hr, hr2, hw, hl] <;> omega
      rw [hcw, trailingPosLen_cons]
      by_cases hall : rest.all (fun x => decide (0 < x)) = true
      · simp [List.all_cons, hall, hr, trailingPosLen_of_all hall]
      · simp [List.all_cons, hall, hr]

theorem scan_currentLossStreak (rs : List ℚ) : ∀ s : StreakState,
    (streakScan s rs).currentLossStreak =
      if rs.all (fun r => decide (r < 0)) then s.currentLossStreak + rs.length
      else trailingNegLen rs := by
  induction rs with
  | nil =>
    intro s
    simp [streakScan]
  | cons r rest ih =>
    intro s
    rw [show streakScan s (r :: rest) = streakScan (streakStep s r) rest from rfl, ih]
    by_cases hr2 : r < 0
    · have hr : ¬ 0 < r := by linarith
      have hcl : (streakStep s r).currentLossStreak = s.currentLossStreak + 1 := by
        by_cases hw : 0 < s.currentWinStreak <;> simp [streakStep, flushWin, hr, hr2, hw]
      rw [hcl]
      by_cases hall : rest.all (fun x => decide (x < 0)) = true
      · simp [List.all_cons, hall, hr2]
        omega
      · rw [trailingNegLen_cons]
        simp [List.all_cons, hall, hr2]
    · have hcl : (streakStep s r).currentLossStreak = 0 := by
        by_cases hr : 0 < r <;>
          by_cases hw : 0 < s.currentWinStreak <;>
          by_cases hl : 0 < s.currentLossStreak <;>
          simp [streakStep, flushWin, flushLoss, hr, hr2, hw, hl] <;> omega
      rw [hcl, trailingNegLen_cons]
      by_cases hall : rest.all (fun x => decide (x < 0)) = true
      · simp [List.all_cons, hall, hr2, trailingNegLen_of_all hall]
      · simp [List.all_cons, hall, hr2]

theorem scan_init_currentWinStreak (rs : List ℚ) :
    (streakScan streakInit rs).currentWinStreak = trailingPosLen rs := by
  rw [scan_currentWinStreak]
  by_cases hall : rs.all (fun r => decide (0 < r)) = true
  · rw [if_pos hall, trailingPosLen_of_all hall]
    simp [streakInit]
  · rw [if_neg hall]

theorem scan_init_currentLossStreak (rs : List ℚ) :
    (streakScan streakInit rs).currentLossStreak = trailingNegLen rs := by
  rw [scan_currentLossStreak]
  by_cases hall : rs.all (fun r => decide (r < 0)) = true
  · rw [if_pos hall, trailingNegLen_of_all hall]
    simp [streakInit]
  · rw [if_neg hall]

/-- C3: the streak scan of the chart builder realizes the claimed
run-length semantics on the date-sorted daily returns: the win/loss
histograms count exactly the maximal runs of strictly positive /
strictly negative returns (a zero return closes both open streaks and
belongs to neither; the streak still open after the last entry is
flushed), the max/average statistics are those of the flushed run
lengths, and `currentStreak` is the signed length of the active trailing
win or loss streak (0 if neither is open). -/
theorem streak_scan_matches_run_decomposition (sqrtQ : ℚ → ℚ)
    (yearOf monthOf : Timestamp → Int) (entries : List EquityCurveEntry)
    (h : entries ≠ []) :
    (buildEquityCurveChartData sqrtQ yearOf monthOf entries).streakData = some
      { winDistribution := fun k =>
          (specWinRuns 0 ((sortEntriesByDate entries).map (·.dailyReturnPct))).count k
        lossDistribution := fun k =>
          (specLossRuns 0 ((sortEntriesByDate entries).map (·.dailyReturnPct))).count k
        statistics :=
          { maxWinStreak :=
              (specWinRuns 0 ((sortEntriesByDate entries).map (·.dailyReturnPct))).foldr max 0
            maxLossStreak :=
              (specLossRuns 0 ((sortEntriesByDate entries).map (·.dailyReturnPct))).foldr max 0
            avgWinStreak :=
              if 0 < (specWinRuns 0 ((sortEntriesByDate entries).map (·.dailyReturnPct))).length then
                qmean ((specWinRuns 0 ((sortEntriesByDate entries).map (·.dailyReturnPct))).map (↑·))
              else 0
            avgLossStreak :=
              if 0 < (specLossRuns 0 ((sortEntriesByDate entries).map (·.dailyReturnPct))).length then
                qmean ((specLossRuns 0 ((sortEntriesByDate entries).map (·.dailyReturnPct))).map (↑·))
              else 0
            currentStreak :=
              specCurrentStreak ((sortEntriesByDate entries).map (·.dailyReturnPct)) } } := by
  have hne : ¬ entries.length = 0 := by simpa [List.length_eq_zero] using h
  simp only [buildEquityCurveChartData, hne, if_false]
  have hW := scanFinish_winStreaks ((sortEntriesByDate entries).map (·.dailyReturnPct)) streakInit
  have hL := scanFinish_lossStreaks ((sortEntriesByDate entries).map (·.dailyReturnPct)) streakInit
  have hWD := scanFinish_winDistribution ((sortEntriesByDate entries).map (·.dailyReturnPct)) streakInit
  have hLD := scanFinish_lossDistribution ((sortEntriesByDate entries).map (·.dailyReturnPct)) streakInit
  have hfc := streakFinish_counters
    (streakScan streakInit ((sortEntriesByDate entries).map (·.dailyReturnPct)))
  have hMW := scan_maxWinStreak ((sortEntriesByDate entries).map (·.dailyReturnPct))
    streakInit (by simp [streakInit])
  have hML := scan_maxLossStreak ((sortEntriesByDate entries).map (·.dailyReturnPct))
    streakInit (by simp [streakInit])
  have hCW := scan_init_currentWinStreak ((sortEntriesByDate entries).map (·.dailyReturnPct))
  have hCL := scan_init_currentLossStreak ((sortEntriesByDate entries).map (·.dailyReturnPct))
  congr 1
  congr 1
  · rw [hWD]
    funext k
    simp [streakInit]
  · rw [hLD]
    funext k
    simp [streakInit]
  · congr 1
    · rw [hfc.2.2.1, hMW]
      simp [streakInit]
    · rw [hfc.2.2.2, hML]
      simp [streakInit]
    · rw [hW]
      simp [streakInit]
    · rw [hL]
      simp [streakInit]
    · rw [hfc.1, hfc.2.1, hCW, hCL]
      rfl

/-- The six-day scenario of the spec's section 8 (3 wins, 2 losses, 1 win). -/
def streakSampleEntries : List EquityCurveEntry :=
  [{ date := 0, dailyReturnPct := 1/100, marginReq := 0, accountValue := 101,
     strategyName := "Alpha" },
   { date := 1, dailyReturnPct := 2/100, marginReq := 0, accountValue := 103,
     strategyName := "Alpha" },
   { date := 2, dailyReturnPct := 3/200, marginReq := 0, accountValue := 104,
     strategyName := "Alpha" },
   { date := 3, dailyReturnPct := -1/100, marginReq := 0, accountValue := 103,
     strategyName := "Alpha" },
   { date := 4, dailyReturnPct := -1/200, marginReq := 0, accountValue := 102,
     strategyName := "Alpha" },
   { date := 5, dailyReturnPct := 1/100, marginReq := 0, accountValue := 103,
     strategyName := "Alpha" }]

/-- C3 witness: the streak theorem applied at the spec's six-day scenario. -/
theorem streak_scan_matches_run_decomposition_witness :
    streakSampleEntries ≠ [] ∧
    (buildEquityCurveChartData (fun q => q) (fun _ => 0) (fun _ => 0)
        streakSampleEntries).streakData = some
      { winDistribution := fun k =>
          (specWinRuns 0 ((sortEntriesByDate streakSampleEntries).map (·.dailyReturnPct))).count k
        lossDistribution := fun k =>
          (specLossRuns 0 ((sortEntriesByDate streakSampleEntries).map (·.dailyReturnPct))).count k
        statistics :=
          { maxWinStreak :=
              (specWinRuns 0 ((sortEntriesByDate streakSampleEntries).map (·.dailyReturnPct))).foldr max 0
            maxLossStreak :=
              (specLossRuns 0 ((sortEntriesByDate streakSampleEntries).map (·.dailyReturnPct))).foldr max 0
            avgWinStreak :=
              if 0 < (specWinRuns 0 ((sortEntriesByDate streakSampleEntries).map (·.dailyReturnPct))).length then
                qmean ((specWinRuns 0 ((sortEntriesByDate streakSampleEntries).map (·.dailyReturnPct))).map (↑·))
              else 0
            avgLossStreak :=
              if 0 < (specLossRuns 0 ((sortEntriesByDate streakSampleEntries).map (·.dailyReturnPct))).length then
                qmean ((specLossRuns 0 ((sortEntriesByDate streakSampleEntries).map (·.dailyReturnPct))).map (↑·))
              else 0
            currentStreak :=
              specCurrentStreak ((sortEntriesByDate streakSampleEntries).map (·.dailyReturnPct)) } } :=
  ⟨by simp [streakSampleEntries],
    streak_scan_matches_run_decomposition (fun q => q) (fun _ => 0) (fun _ => 0)
      streakSampleEntries (by simp [streakSampleEntries])⟩

/-! ## C9 — drawdown bounds and monotonicity (corrected) -/

theorem drawdownStep_gt (s : DrawdownState) (e : EquityCurveEntry)
    (hlt : s.highWaterMark < e.accountValue) :
    (drawdownStep s e).maxDrawdownPct = s.maxDrawdownPct ∧
    (drawdownStep s e).maxDrawdown = s.maxDrawdown ∧
    (drawdownStep s e).highWaterMark = e.accountValue := by
  cases hs : s.currentDrawdownStart <;> simp [drawdownStep, hlt, hs]

theorem drawdownStep_le_update (s : DrawdownState) (e : EquityCurveEntry)
    (hlt : ¬ s.highWaterMark < e.accountValue)
    (hup : s.maxDrawdownPct < (s.highWaterMark - e.accountValue) / s.highWaterMark) :
    (drawdownStep s e).maxDrawdownPct =
        (s.highWaterMark - e.accountValue) / s.highWaterMark ∧
    (drawdownStep s e).maxDrawdown = s.highWaterMark - e.accountValue ∧
    (drawdownStep s e).highWaterMark = s.highWaterMark := by
  cases hs : s.currentDrawdownStart <;> simp [drawdownStep, hlt, hup, hs]

theorem drawdownStep_le_keep (s : DrawdownState) (e : EquityCurveEntry)
    (hlt : ¬ s.highWaterMark < e.accountValue)
    (hup : ¬ s.maxDrawdownPct < (s.highWaterMark - e.accountValue) / s.highWaterMark) :
    (drawdownStep s e).maxDrawdownPct = s.maxDrawdownPct ∧
    (drawdownStep s e).maxDrawdown = s.maxDrawdown ∧
    (drawdownStep s e).highWaterMark = s.highWaterMark := by
  cases hs : s.currentDrawdownStart <;> simp [drawdownStep, hlt, hup, hs]

theorem drawdownScan_fold_inv (l : List EquityCurveEntry) : ∀ s : DrawdownState,
    (∀ e ∈ l, 0 < e.accountValue) →
    0 < s.highWaterMark →
    0 ≤ s.maxDrawdownPct → s.maxDrawdownPct < 1 →
    0 ≤ s.maxDrawdown →
    (0 ≤ (l.foldl drawdownStep s).maxDrawdownPct ∧
     (l.foldl drawdownStep s).maxDrawdownPct < 1 ∧
     0 ≤ (l.foldl drawdownStep s).maxDrawdown ∧
     0 < (l.foldl drawdownStep s).highWaterMark ∧
     s.maxDrawdownPct ≤ (l.foldl drawdownStep s).maxDrawdownPct ∧
     (s.maxDrawdownPct = 0 →
       ((l.foldl drawdownStep s).maxDrawdownPct = 0 ↔
         List.Chain' (· ≤ ·) (s.highWaterMark :: l.map (·.accountValue))))) := by
  induction l with
  | nil =>
    intro s hmem hhwm h0 h1 hdd
    refine ⟨h0, h1, hdd, hhwm, le_refl _, ?_⟩
    intro hz
    simp [hz]
  | cons e l ih =>
    intro s hmem hhwm h0 h1 hdd
    have hav : 0 < e.accountValue := hmem e (List.mem_cons_self e l)
    have hmem' : ∀ x ∈ l, 0 < x.accountValue :=
      fun x hx => hmem x (List.mem_cons_of_mem e hx)
    rw [List.foldl_cons]
    by_cases hlt : s.highWaterMark < e.accountValue
    · obtain ⟨hp, hd, hh⟩ := drawdownStep_gt s e hlt
      have hres := ih (drawdownStep s e) hmem' (by rw [hh]; exact hav)
        (by rw [hp]; exact h0) (by rw [hp]; exact h1) (by rw [hd]; exact hdd)
      refine ⟨hres.1, hres.2.1, hres.2.2.1, hres.2.2.2.1, ?_, ?_⟩
      · calc s.maxDrawdownPct = (drawdownStep s e).maxDrawdownPct := hp.symm
          _ ≤ _ := hres.2.2.2.2.1
      · intro hz
        have hiff := hres.2.2.2.2.2 (by rw [hp]; exact hz)
        rw [hiff, hh, List.map_cons, List.chain'_cons]
        constructor
        · intro hc
          exact ⟨le_of_lt hlt, hc⟩
        · intro hc
          exact hc.2
    · have hle : e.accountValue ≤ s.highWaterMark := not_lt.mp hlt
      have hpct0 : 0 ≤ (s.highWaterMark - e.accountValue) / s.highWaterMark :=
        div_nonneg (by linarith) (le_of_lt hhwm)
      have hpct1 : (s.highWaterMark - e.accountValue) / s.highWaterMark < 1 := by
        rw [div_lt_one hhwm]
        linarith
      by_cases hup : s.maxDrawdownPct < (s.highWaterMark - e.accountValue) / s.highWaterMark
      · obtain ⟨hp, hd, hh⟩ := drawdownStep_le_update s e hlt hup
        have hres := ih (drawdownStep s e) hmem' (by rw [hh]; exact hhwm)
          (by rw [hp]; exact hpct0) (by rw [hp]; exact hpct1)
          (by rw [hd]; linarith)
        refine ⟨hres.1, hres.2.1, hres.2.2.1, hres.2.2.2.1, ?_, ?_⟩
        · calc s.maxDrawdownPct
              ≤ (drawdownStep s e).maxDrawdownPct := by rw [hp]; exact le_of_lt hup
          _ ≤ _ := hres.2.2.2.2.1
        · intro hz
          have hpctpos : 0 < (s.highWaterMark - e.accountValue) / s.highWaterMark := by
            rw [← hz]; exact hup
          have havlt : e.accountValue < s.highWaterMark := by
            rcases div_pos_iff.mp hpctpos with ⟨ha, _⟩ | ⟨_, hb⟩
            · linarith
            · linarith
          constructor
          · intro hcontra
            have : (s.highWaterMark - e.accountValue) / s.highWaterMark ≤
                (l.foldl drawdownStep (drawdownStep s e)).maxDrawdownPct := by
              rw [← hp]; exact hres.2.2.2.2.1
            linarith
          · intro hcontra
            rw [List.map_cons, List.chain'_cons] at hcontra
            linarith [hcontra.1]
      · obtain ⟨hp, hd, hh⟩ := drawdownStep_le_keep s e hlt hup
        have hres := ih (drawdownStep s e) hmem' (by rw [hh]; exact hhwm)
          (by rw [hp]; exact h0) (by rw [hp]; exact h1) (by rw [hd]; exact hdd)
        refine ⟨hres.1, hres.2.1, hres.2.2.1, hres.2.2.2.1, ?_, ?_⟩
        · calc s.maxDrawdownPct = (drawdownStep s e).maxDrawdownPct := hp.symm
          _ ≤ _ := hres.2.2.2.2.1
        · intro hz
          have hpcteq : (s.highWaterMark - e.accountValue) / s.highWaterMark = 0 := by
            have hle2 : (s.highWaterMark - e.accountValue) / s.highWaterMark ≤ 0 := by
              rw [← hz]; exact not_lt.mp hup
            linarith
          have haveq : e.accountValue = s.highWaterMark := by
            rcases div_eq_zero_iff.mp hpcteq with ha | hb
            · linarith
            · linarith
          have hiff := hres.2.2.2.2.2 (by rw [hp]; exact hz)
          rw [hiff, hh, List.map_cons, List.chain'_cons, haveq]
          constructor
          · intro hc
            exact ⟨le_refl _, hc⟩
          · intro hc
            exact hc.2

/-- The two-entry positive series used by the C9 witness. -/
def drawdownSampleEntries : List EquityCurveEntry :=
  [{ date := 0, dailyReturnPct := 0, marginReq := 0, accountValue := 100,
     strategyName := "Alpha" },
   { date := 1, dailyReturnPct := -1/10, marginReq := 0, accountValue := 90,
     strategyName := "Alpha" }]

/-- C9 (amended, restricted to positive account values): for every entry
list whose account values are all strictly positive, the drawdown scan
of `calculateEquityCurveStats` satisfies `maxDrawdownPct ∈ [0, 1]` and
`maxDrawdown ≥ 0`, and `maxDrawdownPct = 0` holds iff the date-sorted
account-value series is monotonically non-decreasing; the returned
`maxDrawdown` field is exactly the scan's value. -/
theorem drawdown_bounds_and_monotone_iff (sqrtQ : ℚ → ℚ)
    (dailyRiskFreeRate : ℚ) (entries : List EquityCurveEntry)
    (hpos : ∀ e ∈ entries, 0 < e.accountValue) :
    0 ≤ (drawdownScan (sortEntriesByDate entries)).maxDrawdownPct ∧
    (drawdownScan (sortEntriesByDate entries)).maxDrawdownPct ≤ 1 ∧
    0 ≤ (drawdownScan (sortEntriesByDate entries)).maxDrawdown ∧
    ((drawdownScan (sortEntriesByDate entries)).maxDrawdownPct = 0 ↔
      List.Chain' (· ≤ ·) ((sortEntriesByDate entries).map (·.accountValue))) ∧
    (calculateEquityCurveStats sqrtQ dailyRiskFreeRate entries).maxDrawdown =
      (drawdownScan (sortEntriesByDate entries)).maxDrawdown := by
  cases hs : sortEntriesByDate entries with
  | nil =>
    have hlen : entries.length = 0 := by
      rw [← sortEntriesByDate_length entries, hs]
      rfl
    have hemp : entries = [] := List.length_eq_zero.mp hlen
    subst hemp
    simp [drawdownScan, calculateEquityCurveStats, createEmptyStats]
  | cons e0 rest =>
    have hlen : ¬ entries.length = 0 := by
      rw [← sortEntriesByDate_length entries, hs]
      simp
    have hmem : ∀ x ∈ e0 :: rest, 0 < x.accountValue := by
      intro x hx
      apply hpos
      have hmem2 : x ∈ sortEntriesByDate entries := by rw [hs]; exact hx
      exact (List.mem_insertionSort _).mp hmem2
    have hav0 : 0 < e0.accountValue := hmem e0 (List.mem_cons_self e0 rest)
    have hres := drawdownScan_fold_inv (e0 :: rest)
      { maxDrawdown := 0, maxDrawdownPct := 0, highWaterMark := e0.accountValue
        currentDrawdownStart := none, maxDrawdownDuration := 0 }
      hmem hav0 (le_refl 0) (by norm_num) (le_refl 0)
    have hiff := hres.2.2.2.2.2 rfl
    rw [List.map_cons, List.chain'_cons] at hiff
    have hscan : drawdownScan (e0 :: rest) =
        (e0 :: rest).foldl drawdownStep
          { maxDrawdown := 0, maxDrawdownPct := 0, highWaterMark := e0.accountValue
            currentDrawdownStart := none, maxDrawdownDuration := 0 } := rfl
    refine ⟨?_, ?_, ?_, ?_, ?_⟩
    · rw [hscan]; exact hres.1
    · rw [hscan]; exact le_of_lt hres.2.1
    · rw [hscan]; exact hres.2.2.1
    · rw [hscan, List.map_cons]
      rw [hiff]
      constructor
      · intro hc
        exact hc.2
      · intro hc
        exact ⟨le_refl _, hc⟩
    · simp only [calculateEquityCurveStats, hlen, if_false]
      rw [hs]

/-- C9 witness: the amended theorem at a concrete positive series. -/
theorem drawdown_bounds_and_monotone_iff_witness :
    (∀ e ∈ drawdownSampleEntries, 0 < e.accountValue) ∧
    (0 ≤ (drawdownScan (sortEntriesByDate drawdownSampleEntries)).maxDrawdownPct ∧
     (drawdownScan (sortEntriesByDate drawdownSampleEntries)).maxDrawdownPct ≤ 1 ∧
     0 ≤ (drawdownScan (sortEntriesByDate drawdownSampleEntries)).maxDrawdown ∧
     ((drawdownScan (sortEntriesByDate drawdownSampleEntries)).maxDrawdownPct = 0 ↔
       List.Chain' (· ≤ ·)
         ((sortEntriesByDate drawdownSampleEntries).map (·.accountValue))) ∧
     (calculateEquityCurveStats (fun q => q) 0 drawdownSampleEntries).maxDrawdown =
       (drawdownScan (sortEntriesByDate drawdownSampleEntries)).maxDrawdown) :=
  ⟨by
    intro e he
    fin_cases he <;> norm_num [drawdownSampleEntries],
    drawdown_bounds_and_monotone_iff (fun q => q) 0 drawdownSampleEntries
      (by
        intro e he
        fin_cases he <;> norm_num [drawdownSampleEntries])⟩

/-- C9 counterexample: with a negative account value the internal
maximum drawdown percentage leaves `[0, 1]` — on account values
`[10, -5]` it is `3/2`, refuting the unrestricted claim. -/
theorem drawdown_pct_exceeds_unit_interval :
    (drawdownScan (sortEntriesByDate
        [{ date := 0, dailyReturnPct := 0, marginReq := 0, accountValue := 10,
           strategyName := "Alpha" },
         { date := 1, dailyReturnPct := 0, marginReq := 0, accountValue := -5,
           strategyName := "Alpha" }])).maxDrawdownPct = 3/2 ∧
    ¬ ((drawdownScan (sortEntriesByDate
        [{ date := 0, dailyReturnPct := 0, marginReq := 0, accountValue := 10,
           strategyName := "Alpha" },
         { date := 1, dailyReturnPct := 0, marginReq := 0, accountValue := -5,
           strategyName := "Alpha" }])).maxDrawdownPct ≤ 1) := by
  have hval : (drawdownScan (sortEntriesByDate
      [{ date := 0, dailyReturnPct := 0, marginReq := 0, accountValue := 10,
         strategyName := "Alpha" },
       { date := 1, dailyReturnPct := 0, marginReq := 0, accountValue := -5,
         strategyName := "Alpha" }])).maxDrawdownPct = 3/2 := by
    norm_num [sortEntriesByDate, List.insertionSort, List.orderedInsert,
      drawdownScan, drawdownStep, List.foldl]
  refine ⟨hval, ?_⟩
  rw [hval]
  norm_num

/-! ## Record / map helper lemmas -/

theorem recordSet_of_not_mem {κ α : Type} [DecidableEq κ] (m : List (κ × α))
    (k : κ) (v : α) (h : k ∉ m.map (·.1)) : recordSet m k v = m ++ [(k, v)] := by
  unfold recordSet
  rw [if_neg]
  intro hc
  rcases List.any_eq_true.mp hc with ⟨p, hp, hpk⟩
  exact h (List.mem_map.mpr ⟨p, hp, of_decide_eq_true hpk⟩)

theorem mem_keys_recordSet {κ α : Type} [DecidableEq κ] (m : List (κ × α))
    (k k' : κ) (v : α) :
    k' ∈ (recordSet m k v).map (·.1) ↔ k' ∈ m.map (·.1) ∨ k' = k := by
  unfold recordSet
  by_cases hany : m.any (fun p => decide (p.1 = k)) = true
  · rw [if_pos hany]
    rcases List.any_eq_true.mp hany with ⟨q, hq, hqk⟩
    have hqk' : q.1 = k := of_decide_eq_true hqk
    constructor
    · intro hmem
      rcases List.mem_map.mp hmem with ⟨p2, hp2, hp2k⟩
      rcases List.mem_map.mp hp2 with ⟨p, hp, hpd⟩
      by_cases hpk : p.1 = k
      · right
        rw [← hp2k, ← hpd]
        simp [hpk]
      · left
        refine List.mem_map.mpr ⟨p, hp, ?_⟩
        rw [← hp2k, ← hpd]
        simp [hpk]
    · intro hmem
      rcases hmem with hmem | rfl
      · rcases List.mem_map.mp hmem with ⟨p, hp, hpk⟩
        by_cases hpkk : p.1 = k
        · refine List.mem_map.mpr ⟨(k, v), List.mem_map.mpr ⟨p, hp, by simp [hpkk]⟩, ?_⟩
          rw [← hpk, hpkk]
        · exact List.mem_map.mpr ⟨p, List.mem_map.mpr ⟨p, hp, by simp [hpkk]⟩, hpk⟩
      · exact List.mem_map.mpr ⟨(k', v), List.mem_map.mpr ⟨q, hq, by simp [hqk']⟩, rfl⟩
  · rw [if_neg hany]
    simp only [List.map_append, List.map_cons, List.map_nil, List.mem_append,
      List.mem_singleton]

theorem foldl_recordSet_eq_append {κ α : Type} [DecidableEq κ] :
    ∀ (l : List (κ × α)) (m : List (κ × α)),
      (∀ p ∈ l, p.1 ∉ m.map (·.1)) → (l.map (·.1)).Nodup →
      l.foldl (fun acc p => recordSet acc p.1 p.2) m = m ++ l := by
  intro l
  induction l with
  | nil =>
    intro m _ _
    simp
  | cons p l ih =>
    intro m hnew hnd
    rw [List.foldl_cons, recordSet_of_not_mem m p.1 p.2
      (hnew p (List.mem_cons_self p l))]
    rw [List.map_cons, List.nodup_cons] at hnd
    have hres := ih (m ++ [(p.1, p.2)]) ?_ hnd.2
    · rw [hres]
      simp
    · intro q hq
      rw [List.map_append, List.mem_append]
      rintro (hc | hc)
      · exact hnew q (List.mem_cons_of_mem p hq) hc
      · simp only [List.map_cons, List.map_nil, List.mem_singleton] at hc
        exact hnd.1 (hc ▸ List.mem_map.mpr ⟨q, hq, rfl⟩)

theorem mapOfList_eq_self {α : Type} {l : List (Timestamp × α)}
    (h : (l.map (·.1)).Nodup) : mapOfList l = l := by
  have hres := foldl_recordSet_eq_append l [] (by simp) h
  simpa [mapOfList] using hres

theorem recordGet_of_mem_nodup {κ α : Type} [DecidableEq κ] :
    ∀ {l : List (κ × α)}, (l.map (·.1)).Nodup → ∀ p ∈ l, recordGet l p.1 = some p.2 := by
  intro l
  induction l with
  | nil =>
    intro _ p hp
    cases hp
  | cons q l ih =>
    intro hnd p hp
    rw [List.map_cons, List.nodup_cons] at hnd
    rcases List.mem_cons.mp hp with rfl | hp2
    · simp [recordGet, List.find?_cons]
    · have hne : q.1 ≠ p.1 := by
        intro hc
        exact hnd.1 (hc ▸ List.mem_map.mpr ⟨p, hp2, rfl⟩)
      have hres := ih hnd.2 p hp2
      simpa [recordGet, List.find?_cons, hne] using hres

theorem recordGet_isSome_iff {κ α : Type} [DecidableEq κ] (m : List (κ × α)) (k : κ) :
    (recordGet m k).isSome ↔ k ∈ m.map (·.1) := by
  unfold recordGet
  cases hf : m.find? (fun p => decide (p.1 = k)) with
  | none =>
    simp only [Option.map_none', Option.isSome_none, Bool.false_eq_true, false_iff]
    intro hk
    rcases List.mem_map.mp hk with ⟨p, hp, hpk⟩
    exact absurd (decide_eq_true hpk) (by simpa using List.find?_eq_none.mp hf p hp)
  | some p =>
    simp only [Option.map_some', Option.isSome_some, true_iff]
    have hp := List.find?_some hf
    have hpm := List.mem_of_find?_eq_some hf
    exact List.mem_map.mpr ⟨p, hpm, of_decide_eq_true hp⟩

theorem mem_keys_foldl_recordSet {α : Type} (l : List (Timestamp × α)) (k : Timestamp) :
    ∀ m : List (Timestamp × α),
      (k ∈ ((l.foldl (fun acc p => recordSet acc p.1 p.2) m).map (·.1)) ↔
        k ∈ m.map (·.1) ∨ k ∈ l.map (·.1)) := by
  induction l with
  | nil =>
    intro m
    simp
  | cons p l ih =>
    intro m
    rw [List.foldl_cons, ih]
    rw [mem_keys_recordSet]
    simp only [List.map_cons, List.mem_cons]
    tauto

theorem mapOfList_keys_mem {α : Type} (l : List (Timestamp × α)) (k : Timestamp) :
    k ∈ (mapOfList l).map (·.1) ↔ k ∈ l.map (·.1) := by
  have hres := mem_keys_foldl_recordSet l k []
  simpa [mapOfList] using hres

theorem recordGet_map_pair {κ α : Type} [DecidableEq κ] (g : κ → α) :
    ∀ (ss : List κ) (s : κ), s ∈ ss →
      recordGet (ss.map (fun x => (x, g x))) s = some (g s) := by
  intro ss
  induction ss with
  | nil =>
    intro s hs
    cases hs
  | cons x ss ih =>
    intro s hs
    rcases List.mem_cons.mp hs with rfl | hs2
    · simp [recordGet, List.find?_cons]
    · by_cases hx : x = s
      · subst hx
        simp [recordGet, List.find?_cons]
      · have hres := ih s hs2
        simpa [recordGet, List.find?_cons, hx] using hres

theorem mem_sortedDedupInts (l : List Timestamp) (t : Timestamp) :
    t ∈ sortedDedupInts l ↔ t ∈ l := by
  simp [sortedDedupInts, List.mem_insertionSort, List.mem_dedup]

theorem sortedDedupInts_pairwise_lt (l : List Timestamp) :
    (sortedDedupInts l).Pairwise (· < ·) := by
  have hsorted : (sortedDedupInts l).Sorted (fun a b : ℤ => a ≤ b) :=
    List.sorted_insertionSort _ _
  have hnodup : (sortedDedupInts l).Nodup :=
    ((List.perm_insertionSort _ _).nodup_iff).mpr (List.nodup_dedup l)
  exact hsorted.lt_of_le hnodup

/-! ## C8 — correlation-matrix alignment (corrected) -/

theorem mem_strategyEntries (entries : List EquityCurveEntry) (s : String)
    (e : EquityCurveEntry) :
    e ∈ EquityCurveCorrelation.strategyEntries entries s ↔
      e ∈ entries ∧ e.strategyName = s := by
  simp [EquityCurveCorrelation.strategyEntries, sortEntriesByDate,
    List.mem_insertionSort, List.mem_filter]

theorem strategyEntries_dates_nodup (entries : List EquityCurveEntry) (s : String)
    (hd : List.Pairwise
      (fun e1 e2 => e1.strategyName = e2.strategyName → e1.date ≠ e2.date) entries) :
    ((EquityCurveCorrelation.strategyEntries entries s).map (·.date)).Nodup := by
  have h1 : List.Pairwise (fun a b : EquityCurveEntry => a.date ≠ b.date)
      (entries.filter (fun e => decide (e.strategyName = s))) := by
    have h2 := hd.filter (fun e => decide (e.strategyName = s))
    refine h2.imp_of_mem ?_
    intro a b ha hb hr
    have has : a.strategyName = s := by
      have hmem := (List.mem_filter.mp ha).2
      exact of_decide_eq_true hmem
    have hbs : b.strategyName = s := by
      have hmem := (List.mem_filter.mp hb).2
      exact of_decide_eq_true hmem
    exact hr (has.trans hbs.symm)
  have h3 : List.Pairwise (fun a b : EquityCurveEntry => a.date ≠ b.date)
      (EquityCurveCorrelation.strategyEntries entries s) := by
    refine (List.Perm.pairwise_iff ?_ (List.perm_insertionSort _ _)).mpr h1
    intro x y hxy
    exact fun hc => hxy hc.symm
  exact List.pairwise_map.mpr h3

theorem dateReturnsOf_keys (entries : List EquityCurveEntry) (s : String)
    (t : Timestamp) :
    (recordGet (EquityCurveCorrelation.dateReturnsOf entries s) t).isSome ↔
      ∃ e ∈ entries, e.strategyName = s ∧ e.date = t := by
  rw [recordGet_isSome_iff, EquityCurveCorrelation.dateReturnsOf, mapOfList_keys_mem]
  constructor
  · intro hmem
    rcases List.mem_map.mp hmem with ⟨p, hp, hpt⟩
    rcases List.mem_map.mp hp with ⟨e, he, hep⟩
    rcases (mem_strategyEntries entries s e).mp he with ⟨he1, he2⟩
    exact ⟨e, he1, he2, by rw [← hpt, ← hep]⟩
  · rintro ⟨e, he, hes, het⟩
    refine List.mem_map.mpr ⟨(e.date, e.dailyReturnPct),
      List.mem_map.mpr ⟨e, (mem_strategyEntries entries s e).mpr ⟨he, hes⟩, rfl⟩, het⟩

theorem dateReturnsOf_get (entries : List EquityCurveEntry) (s : String)
    (e : EquityCurveEntry)
    (hd : List.Pairwise
      (fun e1 e2 => e1.strategyName = e2.strategyName → e1.date ≠ e2.date) entries)
    (he : e ∈ entries) (hes : e.strategyName = s) :
    recordGet (EquityCurveCorrelation.dateReturnsOf entries s) e.date =
      some e.dailyReturnPct := by
  have hkeys : (((EquityCurveCorrelation.strategyEntries entries s).map
      (fun e => (e.date, e.dailyReturnPct))).map (·.1)).Nodup := by
    rw [List.map_map]
    exact strategyEntries_dates_nodup entries s hd
  rw [EquityCurveCorrelation.dateReturnsOf, mapOfList_eq_self hkeys]
  exact recordGet_of_mem_nodup hkeys (e.date, e.dailyReturnPct)
    (List.mem_map.mpr ⟨e, (mem_strategyEntries entries s e).mpr ⟨he, hes⟩, rfl⟩)

/-- C8 (amended): the correlation-matrix builder of
src/lib/calculations/equity-curve-correlation.ts aligns by the
common-dates (intersection) policy — its dates axis holds exactly the
timestamps carried by *every* strategy appearing in the input, sorted
strictly ascending, and each strategy's aligned return vector matches
that axis 1:1 with the strategy's actual return on each common date.
(The duplicate builder in part_000 instead uses the zero-filled union —
see the counterexample.) -/
theorem correlation_matrix_intersection_alignment (sqrtQ : ℚ → ℚ)
    (method : EquityCurveCorrelation.CorrMethod) (entries : List EquityCurveEntry)
    (hd : List.Pairwise
      (fun e1 e2 => e1.strategyName = e2.strategyName → e1.date ≠ e2.date) entries) :
    List.Pairwise (· < ·)
      (EquityCurveCorrelation.calculateEquityCurveCorrelationMatrix sqrtQ entries
        method).dates ∧
    (∀ t : Timestamp,
      t ∈ (EquityCurveCorrelation.calculateEquityCurveCorrelationMatrix sqrtQ entries
          method).dates ↔
        ((∃ e ∈ entries, e.date = t) ∧
         ∀ s ∈ entries.map (·.strategyName),
           ∃ e ∈ entries, e.strategyName = s ∧ e.date = t)) ∧
    (∀ s ∈ entries.map (·.strategyName),
      ∃ rs, recordGet (EquityCurveCorrelation.calculateEquityCurveCorrelationMatrix
          sqrtQ entries method).alignedReturns s = some rs ∧
        rs.length = (EquityCurveCorrelation.calculateEquityCurveCorrelationMatrix
          sqrtQ entries method).dates.length ∧
        ∀ (i : Nat) (e : EquityCurveEntry), e ∈ entries → e.strategyName = s →
          (EquityCurveCorrelation.calculateEquityCurveCorrelationMatrix sqrtQ entries
            method).dates.get? i = some e.date →
          rs.get? i = some e.dailyReturnPct) := by
  have hdates : (EquityCurveCorrelation.calculateEquityCurveCorrelationMatrix sqrtQ
      entries method).dates = (EquityCurveCorrelation.alignEquityCurvesByDate entries).1 :=
    rfl
  have haligned : (EquityCurveCorrelation.calculateEquityCurveCorrelationMatrix sqrtQ
      entries method).alignedReturns =
      (EquityCurveCorrelation.alignEquityCurvesByDate entries).2 := rfl
  have hdef : (EquityCurveCorrelation.alignEquityCurvesByDate entries).1 =
      (sortedDedupInts (entries.map (·.date))).filter (fun t =>
        (EquityCurveCorrelation.strategiesOf entries).all (fun s =>
          (recordGet (EquityCurveCorrelation.dateReturnsOf entries s) t).isSome)) := rfl
  refine ⟨?_, ?_, ?_⟩
  · rw [hdates, hdef]
    exact (sortedDedupInts_pairwise_lt _).filter _
  · intro t
    rw [hdates, hdef, List.mem_filter, mem_sortedDedupInts]
    constructor
    · rintro ⟨ht, hall⟩
      refine ⟨?_, ?_⟩
      · rcases List.mem_map.mp ht with ⟨e, he, het⟩
        exact ⟨e, he, het⟩
      · intro s hs
        have hs2 : s ∈ EquityCurveCorrelation.strategiesOf entries := by
          rw [EquityCurveCorrelation.strategiesOf, List.mem_dedup]
          exact hs
        have := List.all_eq_true.mp hall s hs2
        exact (dateReturnsOf_keys entries s t).mp (by simpa using this)
    · rintro ⟨⟨e, he, het⟩, hall⟩
      refine ⟨List.mem_map.mpr ⟨e, he, het⟩, ?_⟩
      rw [List.all_eq_true]
      intro s hs
      have hs2 : s ∈ entries.map (·.strategyName) := by
        rw [EquityCurveCorrelation.strategiesOf, List.mem_dedup] at hs
        exact hs
      have := (dateReturnsOf_keys entries s t).mpr (hall s hs2)
      simpa using this
  · intro s hs
    have hs2 : s ∈ EquityCurveCorrelation.strategiesOf entries := by
      rw [EquityCurveCorrelation.strategiesOf, List.mem_dedup]
      exact hs
    have hget : recordGet (EquityCurveCorrelation.alignEquityCurvesByDate entries).2 s =
        some (((EquityCurveCorrelation.alignEquityCurvesByDate entries).1).map
          (fun t => (recordGet (EquityCurveCorrelation.dateReturnsOf entries s) t).getD 0)) := by
      exact recordGet_map_pair _ (EquityCurveCorrelation.strategiesOf entries) s hs2
    refine ⟨_, by rw [haligned, hget], by rw [hdates, List.length_map], ?_⟩
    intro i e he hes hdi
    rw [hdates] at hdi
    rw [List.get?_map, hdi]
    have := dateReturnsOf_get entries s e hd he hes
    simp [this]

/-- Entries used by the C8 witness: strategies "A" and "B" share date 1,
and only "A" carries date 2. -/
def correlationSampleEntries : List EquityCurveEntry :=
  [{ date := 1, dailyReturnPct := 1/100, marginReq := 0, accountValue := 100,
     strategyName := "A" },
   { date := 2, dailyReturnPct := 2/100, marginReq := 0, accountValue := 102,
     strategyName := "A" },
   { date := 1, dailyReturnPct := 3/100, marginReq := 0, accountValue := 99,
     strategyName := "B" }]

/-- C8 witness: the amended theorem applied at a concrete two-strategy input. -/
theorem correlation_matrix_intersection_alignment_witness :
    List.Pairwise
      (fun e1 e2 => e1.strategyName = e2.strategyName → e1.date ≠ e2.date)
      correlationSampleEntries ∧
    (List.Pairwise (· < ·)
      (EquityCurveCorrelation.calculateEquityCurveCorrelationMatrix (fun q => q)
        correlationSampleEntries EquityCurveCorrelation.CorrMethod.pearson).dates ∧
    (∀ t : Timestamp,
      t ∈ (EquityCurveCorrelation.calculateEquityCurveCorrelationMatrix (fun q => q)
          correlationSampleEntries EquityCurveCorrelation.CorrMethod.pearson).dates ↔
        ((∃ e ∈ correlationSampleEntries, e.date = t) ∧
         ∀ s ∈ correlationSampleEntries.map (·.strategyName),
           ∃ e ∈ correlationSampleEntries, e.strategyName = s ∧ e.date = t)) ∧
    (∀ s ∈ correlationSampleEntries.map (·.strategyName),
      ∃ rs, recordGet (EquityCurveCorrelation.calculateEquityCurveCorrelationMatrix
          (fun q => q) correlationSampleEntries
          EquityCurveCorrelation.CorrMethod.pearson).alignedReturns s = some rs ∧
        rs.length = (EquityCurveCorrelation.calculateEquityCurveCorrelationMatrix
          (fun q => q) correlationSampleEntries
          EquityCurveCorrelation.CorrMethod.pearson).dates.length ∧
        ∀ (i : Nat) (e : EquityCurveEntry), e ∈ correlationSampleEntries →
          e.strategyName = s →
          (EquityCurveCorrelation.calculateEquityCurveCorrelationMatrix (fun q => q)
            correlationSampleEntries
            EquityCurveCorrelation.CorrMethod.pearson).dates.get? i = some e.date →
          rs.get? i = some e.dailyReturnPct)) :=
  ⟨by decide,
    correlation_matrix_intersection_alignment (fun q => q)
      EquityCurveCorrelation.CorrMethod.pearson correlationSampleEntries
      (by decide)⟩

/-- The single "A" observation at date 1 (stored return 1 percent). -/
def unionSampleA : EquityCurveEntry :=
  { date := 1, dailyReturnPct := 1, marginReq := 0, accountValue := 100,
    strategyName := "A" }

/-- The single "B" observation at date 2 (stored return 3 percent). -/
def unionSampleB : EquityCurveEntry :=
  { date := 2, dailyReturnPct := 3, marginReq := 0, accountValue := 99,
    strategyName := "B" }

/-- C8 counterexample: the duplicate correlation-matrix builder of
part_000 does *not* use the intersection policy — on strategies with
disjoint dates its axis is the union `[1, 2]`, a date strategy "B" never
carried, and "A"'s aligned vector is zero-filled and rescaled
(`dailyReturnPct / 100`) rather than matching the actual stored
returns. -/
theorem part000_union_axis_refutes_intersection :
    (BlockCorrelation.alignEquityCurvesByDate
        [("A", [unionSampleA]), ("B", [unionSampleB])]).1 = [1, 2] ∧
    (∀ e ∈ [unionSampleB], e.date ≠ (1 : Timestamp)) ∧
    (BlockCorrelation.alignEquityCurvesByDate
        [("A", [unionSampleA]), ("B", [unionSampleB])]).2 =
      [("A", [1/100, 0]), ("B", [0, 3/100])] := by
  refine ⟨?_, ?_, ?_⟩
  · norm_num [BlockCorrelation.alignEquityCurvesByDate, sortedDedupInts,
      List.insertionSort, List.orderedInsert, List.dedup, unionSampleA, unionSampleB]
  · intro e he
    rcases List.mem_cons.mp he with rfl | he2
    · norm_num [unionSampleB]
    · cases he2
  · norm_num [BlockCorrelation.alignEquityCurvesByDate, sortedDedupInts,
      List.insertionSort, List.orderedInsert, List.dedup, mapOfList, recordSet,
      recordGet, List.find?, unionSampleA, unionSampleB]

/-! ## C4 — forward-fill under union alignment -/

/-- One step of the claim-side "most recent observation at or before `t`"
selection. -/
def latestStep (t : Timestamp) (acc : Option EquityCurveEntry)
    (e : EquityCurveEntry) : Option EquityCurveEntry :=
  if e.date ≤ t then
    match acc with
    | none => some e
    | some b => if b.date < e.date then some e else acc
  else acc

/-- Claim-side: the component's most recent observation at or before `t`
(the entry with the greatest date `≤ t`), if any. -/
def latestAt (es : List EquityCurveEntry) (t : Timestamp) : Option EquityCurveEntry :=
  es.foldl (latestStep t) none

theorem latestStep_eq_none_iff (t : Timestamp) (acc : Option EquityCurveEntry)
    (e : EquityCurveEntry) :
    latestStep t acc e = none ↔ (acc = none ∧ ¬ e.date ≤ t) := by
  by_cases hdt : e.date ≤ t
  · cases acc with
    | none => simp [latestStep, hdt]
    | some b =>
      by_cases hb : b.date < e.date <;> simp [latestStep, hdt, hb]
  · cases acc with
    | none => simp [latestStep, hdt]
    | some b => simp [latestStep, hdt]

theorem latestAt_fold_none_iff (t : Timestamp) :
    ∀ (es : List EquityCurveEntry) (acc : Option EquityCurveEntry),
      es.foldl (latestStep t) acc = none ↔ (acc = none ∧ ∀ e ∈ es, ¬ e.date ≤ t) := by
  intro es
  induction es with
  | nil =>
    intro acc
    simp
  | cons e es ih =>
    intro acc
    rw [List.foldl_cons, ih, latestStep_eq_none_iff]
    constructor
    · rintro ⟨⟨hacc, hde⟩, hall⟩
      refine ⟨hacc, ?_⟩
      intro x hx
      rcases List.mem_cons.mp hx with rfl | hx2
      · exact hde
      · exact hall x hx2
    · rintro ⟨hacc, hall⟩
      exact ⟨⟨hacc, hall e (List.mem_cons_self e es)⟩,
        fun x hx => hall x (List.mem_cons_of_mem e hx)⟩

theorem latestStep_some_spec (t : Timestamp) (acc : Option EquityCurveEntry)
    (e c : EquityCurveEntry) (hc : latestStep t acc e = some c) :
    (acc = some c ∨ (c = e ∧ e.date ≤ t)) ∧
    (e.date ≤ t → e.date ≤ c.date) ∧
    (∀ a, acc = some a → a.date ≤ c.date) := by
  by_cases hdt : e.date ≤ t
  · cases acc with
    | none =>
      simp only [latestStep, hdt, if_true] at hc
      cases hc
      exact ⟨Or.inr ⟨rfl, hdt⟩, fun _ => le_refl _, by simp⟩
    | some a =>
      by_cases hb : a.date < e.date
      · simp only [latestStep, hdt, hb, if_true] at hc
        cases hc
        refine ⟨Or.inr ⟨rfl, hdt⟩, fun _ => le_refl _, ?_⟩
        intro a2 ha2
        cases ha2
        exact le_of_lt hb
      · simp only [latestStep, hdt, hb, if_true, if_false] at hc
        cases hc
        refine ⟨Or.inl rfl, fun _ => not_lt.mp hb, ?_⟩
        intro a2 ha2
        cases ha2
        exact le_refl _
  · simp only [latestStep, hdt, if_false] at hc
    refine ⟨Or.inl hc, fun hcontra => absurd hcontra hdt, ?_⟩
    intro a2 ha2
    rw [ha2] at hc
    cases hc
    exact le_refl _

theorem latestAt_fold_some_spec (t : Timestamp) :
    ∀ (es : List EquityCurveEntry) (acc : Option EquityCurveEntry)
      (b : EquityCurveEntry), es.foldl (latestStep t) acc = some b →
      (acc = some b ∨ (b ∈ es ∧ b.date ≤ t)) ∧
      (∀ e ∈ es, e.date ≤ t → e.date ≤ b.date) ∧
      (∀ a, acc = some a → a.date ≤ b.date) := by
  intro es
  induction es with
  | nil =>
    intro acc b hb
    refine ⟨Or.inl hb, by simp, ?_⟩
    intro a ha
    rw [ha] at hb
    cases hb
    exact le_refl _
  | cons e es ih =>
    intro acc b hb
    rw [List.foldl_cons] at hb
    obtain ⟨h1, h2, h3⟩ := ih (latestStep t acc e) b hb
    have hsomeofsome : ∀ a, acc = some a → ∃ c, latestStep t acc e = some c := by
      intro a ha
      cases hlc : latestStep t acc e with
      | none =>
        rw [latestStep_eq_none_iff] at hlc
        rw [ha] at hlc
        cases hlc.1
      | some c => exact ⟨c, rfl⟩
    have hsomeofdt : e.date ≤ t → ∃ c, latestStep t acc e = some c := by
      intro hdt
      cases hlc : latestStep t acc e with
      | none =>
        rw [latestStep_eq_none_iff] at hlc
        exact absurd hdt hlc.2
      | some c => exact ⟨c, rfl⟩
    refine ⟨?_, ?_, ?_⟩
    · rcases h1 with h1 | ⟨hbm, hbt⟩
      · rcases latestStep_some_spec t acc e b h1 with ⟨hcase, _, _⟩
        rcases hcase with hcase | ⟨rfl, hdt⟩
        · exact Or.inl hcase
        · exact Or.inr ⟨List.mem_cons_self _ _, hdt⟩
      · exact Or.inr ⟨List.mem_cons_of_mem e hbm, hbt⟩
    · intro x hx hxt
      rcases List.mem_cons.mp hx with rfl | hx2
      · obtain ⟨c, hc⟩ := hsomeofdt hxt
        rcases latestStep_some_spec t acc x c hc with ⟨_, hcd, _⟩
        exact le_trans (hcd hxt) (h3 c hc)
      · exact h2 x hx2 hxt
    · intro a ha
      obtain ⟨c, hc⟩ := hsomeofsome a ha
      rcases latestStep_some_spec t acc e c hc with ⟨_, _, hacc⟩
      exact le_trans (hacc a ha) (h3 c hc)

theorem latestAt_none_iff (es : List EquityCurveEntry) (t : Timestamp) :
    latestAt es t = none ↔ ∀ e ∈ es, ¬ e.date ≤ t := by
  rw [latestAt, latestAt_fold_none_iff]
  simp

theorem latestAt_some_spec (es : List EquityCurveEntry) (t : Timestamp)
    (b : EquityCurveEntry) (hb : latestAt es t = some b) :
    b ∈ es ∧ b.date ≤ t ∧ ∀ e ∈ es, e.date ≤ t → e.date ≤ b.date := by
  obtain ⟨h1, h2, _⟩ := latestAt_fold_some_spec t es none b hb
  rcases h1 with h1 | ⟨hbm, hbt⟩
  · cases h1
  · exact ⟨hbm, hbt, h2⟩

theorem latestAt_eq_of_mem_max (es : List EquityCurveEntry) (t : Timestamp)
    (e : EquityCurveEntry) (hnd : (es.map (·.date)).Nodup) (he : e ∈ es)
    (het : e.date ≤ t) (hmax : ∀ b ∈ es, b.date ≤ t → b.date ≤ e.date) :
    latestAt es t = some e := by
  cases hb : latestAt es t with
  | none =>
    rw [latestAt_none_iff] at hb
    exact absurd het (hb e he)
  | some b =>
    obtain ⟨hbm, hbt, hble⟩ := latestAt_some_spec es t b hb
    have h1 : e.date ≤ b.date := hble e he het
    have h2 : b.date ≤ e.date := hmax b hbm hbt
    have heq : b = e := List.inj_on_of_nodup_map hnd hbm he (le_antisymm h2 h1)
    rw [heq]

theorem latestAt_congr (es : List EquityCurveEntry) (t B : Timestamp)
    (hiff : ∀ e ∈ es, (e.date ≤ t ↔ e.date ≤ B)) :
    latestAt es t = latestAt es B := by
  unfold latestAt
  suffices h : ∀ (l : List EquityCurveEntry), (∀ e ∈ l, (e.date ≤ t ↔ e.date ≤ B)) →
      ∀ acc, l.foldl (latestStep t) acc = l.foldl (latestStep B) acc by
    exact h es hiff none
  intro l
  induction l with
  | nil =>
    intro _ acc
    rfl
  | cons e l ih =>
    intro hl acc
    rw [List.foldl_cons, List.foldl_cons]
    have hstep : latestStep t acc e = latestStep B acc e := by
      have he := hl e (List.mem_cons_self e l)
      by_cases hdt : e.date ≤ t
      · simp only [latestStep, if_pos hdt, if_pos (he.mp hdt)]
      · simp only [latestStep, if_neg hdt, if_neg (fun hc => hdt (he.mpr hc))]
    rw [hstep]
    exact ih (fun x hx => hl x (List.mem_cons_of_mem e hx)) _

theorem recordGet_mem {κ α : Type} [DecidableEq κ] {m : List (κ × α)} {k : κ}
    {v : α} (h : recordGet m k = some v) : (k, v) ∈ m := by
  unfold recordGet at h
  cases hf : m.find? (fun p => decide (p.1 = k)) with
  | none =>
    rw [hf] at h
    cases h
  | some p =>
    rw [hf] at h
    simp only [Option.map_some', Option.some.injEq] at h
    have hp1 : p.1 = k := by
      have := List.find?_some hf
      exact of_decide_eq_true this
    have hpm := List.mem_of_find?_eq_some hf
    have hpv : p = (k, v) := by
      cases p
      simp only [Prod.mk.injEq]
      exact ⟨hp1, h⟩
    rw [← hpv]
    exact hpm

theorem recordSet_pred_map {κ α : Type} [DecidableEq κ] (m : List (κ × α))
    (k k' : κ) (v : α) :
    (fun p : κ × α => decide ((if p.1 = k then (k, v) else p).1 = k')) =
      (fun p : κ × α => decide ((if p.1 = k then k else p.1) = k')) := by
  funext p
  by_cases hp : p.1 = k <;> simp [hp]

theorem recordGet_recordSet_self {κ α : Type} [DecidableEq κ] (m : List (κ × α))
    (k : κ) (v : α) : recordGet (recordSet m k v) k = some v := by
  unfold recordSet
  by_cases hany : m.any (fun p => decide (p.1 = k)) = true
  · rw [if_pos hany]
    unfold recordGet
    rw [List.find?_map]
    have hpred : ((fun p : κ × α => decide (p.1 = k)) ∘
        (fun p : κ × α => if p.1 = k then (k, v) else p)) =
        (fun p : κ × α => decide (p.1 = k)) := by
      funext p
      by_cases hp : p.1 = k <;> simp [hp]
    rw [hpred]
    rcases List.any_eq_true.mp hany with ⟨q, hq, hqk⟩
    have hsome : (m.find? (fun p => decide (p.1 = k))).isSome := by
      rw [List.find?_isSome]
      exact ⟨q, hq, hqk⟩
    cases hf : m.find? (fun p => decide (p.1 = k)) with
    | none =>
      rw [hf] at hsome
      cases hsome
    | some p =>
      have hp1 : p.1 = k := by
        have := List.find?_some hf
        exact of_decide_eq_true this
      simp [hp1]
  · rw [if_neg hany]
    unfold recordGet
    rw [List.find?_append]
    have hnone : m.find? (fun p => decide (p.1 = k)) = none := by
      rw [List.find?_eq_none]
      intro p hp hpk
      exact hany (List.any_eq_true.mpr ⟨p, hp, hpk⟩)
    rw [hnone]
    simp

theorem recordGet_recordSet_ne {κ α : Type} [DecidableEq κ] (m : List (κ × α))
    (k k' : κ) (v : α) (hne : k' ≠ k) :
    recordGet (recordSet m k v) k' = recordGet m k' := by
  unfold recordSet
  by_cases hany : m.any (fun p => decide (p.1 = k)) = true
  · rw [if_pos hany]
    unfold recordGet
    rw [List.find?_map]
    have hpred : ((fun p : κ × α => decide (p.1 = k')) ∘
        (fun p : κ × α => if p.1 = k then (k, v) else p)) =
        (fun p : κ × α => decide (p.1 = k')) := by
      funext p
      by_cases hp : p.1 = k <;> simp [hp]
    rw [hpred]
    cases hf : m.find? (fun p => decide (p.1 = k')) with
    | none => simp
    | some p =>
      have hp1 : p.1 = k' := by
        have := List.find?_some hf
        exact of_decide_eq_true this
      have hpk : p.1 ≠ k := by
        rw [hp1]
        exact hne
      simp [hpk]
  · rw [if_neg hany]
    unfold recordGet
    rw [List.find?_append]
    have hnone : List.find? (fun p => decide (p.1 = k')) [(k, v)] = none := by
      simp [List.find?, Ne.symm hne]
    rw [hnone]
    simp

theorem recordSet_keys_nodup {κ α : Type} [DecidableEq κ] (m : List (κ × α))
    (k : κ) (v : α) (h : (m.map (·.1)).Nodup) :
    ((recordSet m k v).map (·.1)).Nodup := by
  unfold recordSet
  by_cases hany : m.any (fun p => decide (p.1 = k)) = true
  · rw [if_pos hany]
    have hfun : ((fun p : κ × α => p.1) ∘
        (fun p : κ × α => if p.1 = k then (k, v) else p)) =
        (fun p : κ × α => p.1) := by
      funext p
      by_cases hp : p.1 = k <;> simp [hp]
    rw [List.map_map, hfun]
    exact h
  · rw [if_neg hany, List.map_append]
    rw [List.nodup_append]
    refine ⟨h, by simp, ?_⟩
    intro x hx hy
    simp only [List.map_cons, List.map_nil, List.mem_singleton] at hy
    rcases List.mem_map.mp hx with ⟨p, hp, hpk⟩
    apply hany
    apply List.any_eq_true.mpr
    refine ⟨p, hp, ?_⟩
    rw [hpk, hy]
    simp

theorem componentCurvesOf_keys_nodup (components : List SuperBlock.Component) :
    ((SuperBlock.componentCurvesOf components).map (·.1)).Nodup := by
  unfold SuperBlock.componentCurvesOf
  suffices h : ∀ (cs : List SuperBlock.Component)
      (m : List (String × List EquityCurveEntry)), (m.map (·.1)).Nodup →
      ((cs.foldl (fun m c =>
        match c.blockType, c.equityCurveEntries with
        | .equityCurve, some entries => recordSet m c.blockName entries
        | _, _ =>
          match c.blockType, c.trades with
          | .tradeBased, some trades =>
            recordSet m c.blockName
              (SuperBlock.tradesToEquityCurve trades c.blockName c.dailyLogs)
          | _, _ => m) m).map (·.1)).Nodup by
    exact h components [] (by simp)
  intro cs
  induction cs with
  | nil =>
    intro m hm
    simpa using hm
  | cons c cs ih =>
    intro m hm
    rw [List.foldl_cons]
    apply ih
    rcases c with ⟨bid, bname, btype, trades, dlogs, eces, w⟩
    cases btype with
    | equityCurve =>
      cases eces with
      | some entries => exact recordSet_keys_nodup m bname entries hm
      | none =>
        cases trades with
        | some ts => exact hm
        | none => exact hm
    | tradeBased =>
      cases trades with
      | some ts =>
        cases eces with
        | some entries => exact recordSet_keys_nodup m bname _ hm
        | none => exact recordSet_keys_nodup m bname _ hm
      | none =>
        cases eces with
        | some entries => exact hm
        | none => exact hm

theorem valuesByComponentOf_keys (l : List (String × List EquityCurveEntry)) :
    (SuperBlock.valuesByComponentOf l).map (·.1) = l.map (·.1) := by
  simp [SuperBlock.valuesByComponentOf, List.map_map, Function.comp]

theorem valuesByComponentOf_get (l : List (String × List EquityCurveEntry))
    (hkeys : (l.map (·.1)).Nodup) (p : String × List EquityCurveEntry) (hp : p ∈ l) :
    recordGet (SuperBlock.valuesByComponentOf l) p.1 =
      some (mapOfList (p.2.map (fun e => (e.date, e)))) := by
  have hk2 : ((SuperBlock.valuesByComponentOf l).map (·.1)).Nodup := by
    rw [valuesByComponentOf_keys]
    exact hkeys
  have hmem : (p.1, mapOfList (p.2.map (fun e => (e.date, e)))) ∈
      SuperBlock.valuesByComponentOf l :=
    List.mem_map.mpr ⟨p, hp, rfl⟩
  exact recordGet_of_mem_nodup hk2 _ hmem

theorem curve_pairs_keys (es : List EquityCurveEntry) :
    ((es.map (fun e => (e.date, e))).map (·.1)) = es.map (·.date) := by
  simp [List.map_map, Function.comp]

theorem curveMap_lookup_mem (es : List EquityCurveEntry)
    (hnd : (es.map (·.date)).Nodup) (t : Timestamp) (e : EquityCurveEntry)
    (h : recordGet (mapOfList (es.map (fun e => (e.date, e)))) t = some e) :
    e ∈ es ∧ e.date = t := by
  have hk : ((es.map (fun e => (e.date, e))).map (·.1)).Nodup := by
    rw [curve_pairs_keys]
    exact hnd
  rw [mapOfList_eq_self hk] at h
  have hmem := recordGet_mem h
  rcases List.mem_map.mp hmem with ⟨e', he', heq⟩
  have h1 : e'.date = t := congrArg Prod.fst heq
  have h2 : e' = e := congrArg Prod.snd heq
  subst h2
  exact ⟨he', h1⟩

theorem curveMap_lookup_none (es : List EquityCurveEntry) (t : Timestamp)
    (h : recordGet (mapOfList (es.map (fun e => (e.date, e)))) t = none) :
    ∀ e ∈ es, e.date ≠ t := by
  intro e he hc
  have hk : t ∈ ((es.map (fun e => (e.date, e))).map (·.1)) := by
    rw [curve_pairs_keys]
    exact List.mem_map.mpr ⟨e, he, hc⟩
  have hsome := (recordGet_isSome_iff
      (mapOfList (es.map (fun e => (e.date, e)))) t).mpr
    ((mapOfList_keys_mem _ t).mpr hk)
  rw [h] at hsome
  simp at hsome

theorem combineDateFold_spec
    (componentCurves : List (String × List EquityCurveEntry))
    (hkeys : (componentCurves.map (·.1)).Nodup)
    (hnd : ∀ p ∈ componentCurves, (p.2.map (·.date)).Nodup)
    (t B : Timestamp) (hBt : B < t)
    (hgap : ∀ p ∈ componentCurves, ∀ e ∈ p.2, e.date ≤ B ∨ t ≤ e.date) :
    ∀ (names : List String) (acc : SuperBlock.DayAccum),
      (∀ s ∈ names, s ∈ componentCurves.map (·.1)) →
      names.Nodup →
      (∀ p ∈ componentCurves, p.1 ∈ names →
        recordGet acc.lastKnown p.1 = latestAt p.2 B) →
      (∀ s ∈ names, s ∉ acc.componentValues.map (·.1)) →
      ((SuperBlock.combineDateFold
          (SuperBlock.valuesByComponentOf componentCurves) t acc names).componentValues
        = acc.componentValues ++ names.filterMap (fun s =>
            (latestAt ((recordGet componentCurves s).getD []) t).map
              (fun e => (s, e.accountValue))) ∧
      (SuperBlock.combineDateFold
          (SuperBlock.valuesByComponentOf componentCurves) t acc names).value
        = acc.value + (names.map (fun s =>
            ((latestAt ((recordGet componentCurves s).getD []) t).map
              (·.accountValue)).getD 0)).sum ∧
      (∀ p ∈ componentCurves,
        (p.1 ∈ names →
          recordGet (SuperBlock.combineDateFold
            (SuperBlock.valuesByComponentOf componentCurves) t acc names).lastKnown p.1
            = latestAt p.2 t) ∧
        (p.1 ∉ names →
          recordGet (SuperBlock.combineDateFold
            (SuperBlock.valuesByComponentOf componentCurves) t acc names).lastKnown p.1
            = recordGet acc.lastKnown p.1))) := by
  intro names
  induction names with
  | nil =>
    intro acc _ _ _ _
    refine ⟨by simp [SuperBlock.combineDateFold],
      by simp [SuperBlock.combineDateFold], ?_⟩
    intro p _
    exact ⟨fun hmem => absurd hmem (List.not_mem_nil _), fun _ => rfl⟩
  | cons s names ih =>
    intro acc hsub hnodup hlk hfresh
    have hs : s ∈ componentCurves.map (·.1) := hsub s (List.mem_cons_self _ _)
    rcases List.mem_map.mp hs with ⟨p₀, hp₀, hp₀s⟩
    have hvget : recordGet (SuperBlock.valuesByComponentOf componentCurves) s =
        some (mapOfList (p₀.2.map (fun e => (e.date, e)))) := by
      rw [← hp₀s]
      exact valuesByComponentOf_get componentCurves hkeys p₀ hp₀
    have hcget : recordGet componentCurves s = some p₀.2 := by
      rw [← hp₀s]
      exact recordGet_of_mem_nodup hkeys p₀ hp₀
    have hnd₀ : (p₀.2.map (·.date)).Nodup := hnd p₀ hp₀
    have hsnotin : s ∉ names := (List.nodup_cons.mp hnodup).1
    have hpeq : ∀ p ∈ componentCurves, p.1 = s → p = p₀ := by
      intro p hp hps
      exact List.inj_on_of_nodup_map hkeys hp hp₀ (hps.trans hp₀s.symm)
    cases hlook : recordGet (mapOfList (p₀.2.map (fun e => (e.date, e)))) t with
    | some entry =>
      obtain ⟨hem, hedate⟩ := curveMap_lookup_mem p₀.2 hnd₀ t entry hlook
      have hlt : latestAt p₀.2 t = some entry :=
        latestAt_eq_of_mem_max p₀.2 t entry hnd₀ hem (le_of_eq hedate)
          (fun b _ hbt => hedate ▸ hbt)
      have hstep : SuperBlock.combineDateFold
          (SuperBlock.valuesByComponentOf componentCurves) t acc (s :: names)
          = SuperBlock.combineDateFold
            (SuperBlock.valuesByComponentOf componentCurves) t
            { componentValues := recordSet acc.componentValues s entry.accountValue
              value := acc.value + entry.accountValue
              marginReq := acc.marginReq + entry.marginReq
              missing := acc.missing
              lastKnown := recordSet acc.lastKnown s entry } names := by
        simp only [SuperBlock.combineDateFold, hvget, Option.getD_some, hlook]
      have hsetcv : recordSet acc.componentValues s entry.accountValue
          = acc.componentValues ++ [(s, entry.accountValue)] :=
        recordSet_of_not_mem _ _ _ (hfresh s (List.mem_cons_self _ _))
      obtain ⟨ihcv, ihval, ihlk⟩ := ih
        { componentValues := recordSet acc.componentValues s entry.accountValue
          value := acc.value + entry.accountValue
          marginReq := acc.marginReq + entry.marginReq
          missing := acc.missing
          lastKnown := recordSet acc.lastKnown s entry }
        (fun x hx => hsub x (List.mem_cons_of_mem s hx))
        (List.nodup_cons.mp hnodup).2
        (by
          intro p hp hpn
          have hps : p.1 ≠ s := fun hc => hsnotin (hc ▸ hpn)
          show recordGet (recordSet acc.lastKnown s entry) p.1 = latestAt p.2 B
          rw [recordGet_recordSet_ne acc.lastKnown s p.1 entry hps]
          exact hlk p hp (List.mem_cons_of_mem s hpn))
        (by
          intro x hx
          show x ∉ (recordSet acc.componentValues s entry.accountValue).map (·.1)
          rw [hsetcv, List.map_append]
          intro hc
          rcases List.mem_append.mp hc with hc1 | hc2
          · exact hfresh x (List.mem_cons_of_mem s hx) hc1
          · simp only [List.map_cons, List.map_nil, List.mem_singleton] at hc2
            exact hsnotin (hc2 ▸ hx))
      refine ⟨?_, ?_, ?_⟩
      · rw [hstep, ihcv]
        simp [hsetcv, List.filterMap_cons, hcget, hlt, List.append_assoc]
      · rw [hstep, ihval]
        simp only [List.map_cons, List.sum_cons, hcget, Option.getD_some, hlt,
          Option.map_some']
        show acc.value + entry.accountValue + _ = _
        ring
      · intro p hp
        constructor
        · intro hpn
          rw [hstep]
          rcases List.mem_cons.mp hpn with hps | hpn2
          · have hpp₀ : p = p₀ := hpeq p hp hps
            have hnotn : p.1 ∉ names := by
              rw [hps]
              exact hsnotin
            rw [(ihlk p hp).2 hnotn]
            show recordGet (recordSet acc.lastKnown s entry) p.1 = latestAt p.2 t
            rw [hps, recordGet_recordSet_self, hpp₀, hlt]
          · exact (ihlk p hp).1 hpn2
        · intro hpn
          rw [hstep]
          have hnotn : p.1 ∉ names := fun hc => hpn (List.mem_cons_of_mem s hc)
          have hps : p.1 ≠ s := fun hc => hpn (hc ▸ List.mem_cons_self s names)
          rw [(ihlk p hp).2 hnotn]
          show recordGet (recordSet acc.lastKnown s entry) p.1 = recordGet acc.lastKnown p.1
          rw [recordGet_recordSet_ne acc.lastKnown s p.1 entry hps]
    | none =>
      have hnone : ∀ e ∈ p₀.2, e.date ≠ t := curveMap_lookup_none p₀.2 t hlook
      have hcongr : latestAt p₀.2 t = latestAt p₀.2 B := by
        apply latestAt_congr
        intro e he
        rcases hgap p₀ hp₀ e he with hle | hge
        · exact ⟨fun _ => hle, fun _ => le_trans hle (le_of_lt hBt)⟩
        · have hgt : t < e.date := lt_of_le_of_ne hge (fun hc => hnone e he hc.symm)
          exact ⟨fun hc => absurd hc (not_le.mpr hgt),
            fun hc => absurd hc (not_le.mpr (lt_trans hBt hgt))⟩
      have hlkB : recordGet acc.lastKnown s = latestAt p₀.2 B := by
        have hres := hlk p₀ hp₀ (by rw [hp₀s]; exact List.mem_cons_self s names)
        rw [hp₀s] at hres
        exact hres
      have hfs : (latestAt ((recordGet componentCurves s).getD []) t).map
          (fun e => (s, e.accountValue))
          = (latestAt p₀.2 B).map (fun e => (s, e.accountValue)) := by
        rw [hcget, Option.getD_some, hcongr]
      have hgs : ((latestAt ((recordGet componentCurves s).getD []) t).map
          (·.accountValue)).getD 0
          = ((latestAt p₀.2 B).map (·.accountValue)).getD 0 := by
        rw [hcget, Option.getD_some, hcongr]
      cases hlb : latestAt p₀.2 B with
      | some entry2 =>
        have hlkBs : recordGet acc.lastKnown s = some entry2 := by
          rw [hlkB, hlb]
        have hstep : SuperBlock.combineDateFold
            (SuperBlock.valuesByComponentOf componentCurves) t acc (s :: names)
            = SuperBlock.combineDateFold
              (SuperBlock.valuesByComponentOf componentCurves) t
              { componentValues := recordSet acc.componentValues s entry2.accountValue
                value := acc.value + entry2.accountValue
                marginReq := acc.marginReq + entry2.marginReq
                missing := acc.missing + 1
                lastKnown := acc.lastKnown } names := by
          simp only [SuperBlock.combineDateFold, hvget, Option.getD_some, hlook, hlkBs]
        have hsetcv : recordSet acc.componentValues s entry2.accountValue
            = acc.componentValues ++ [(s, entry2.accountValue)] :=
          recordSet_of_not_mem _ _ _ (hfresh s (List.mem_cons_self _ _))
        obtain ⟨ihcv, ihval, ihlk⟩ := ih
          { componentValues := recordSet acc.componentValues s entry2.accountValue
            value := acc.value + entry2.accountValue
            marginReq := acc.marginReq + entry2.marginReq
            missing := acc.missing + 1
            lastKnown := acc.lastKnown }
          (fun x hx => hsub x (List.mem_cons_of_mem s hx))
          (List.nodup_cons.mp hnodup).2
          (by
            intro p hp hpn
            show recordGet acc.lastKnown p.1 = latestAt p.2 B
            exact hlk p hp (List.mem_cons_of_mem s hpn))
          (by
            intro x hx
            show x ∉ (recordSet acc.componentValues s entry2.accountValue).map (·.1)
            rw [hsetcv, List.map_append]
            intro hc
            rcases List.mem_append.mp hc with hc1 | hc2
            · exact hfresh x (List.mem_cons_of_mem s hx) hc1
            · simp only [List.map_cons, List.map_nil, List.mem_singleton] at hc2
              exact hsnotin (hc2 ▸ hx))
        refine ⟨?_, ?_, ?_⟩
        · rw [hstep, ihcv]
          simp [hsetcv, List.filterMap_cons, hfs, hlb, List.append_assoc]
        · rw [hstep, ihval]
          simp only [List.map_cons, List.sum_cons, hgs, hlb, Option.map_some',
            Option.getD_some]
          show acc.value + entry2.accountValue + _ = _
          ring
        · intro p hp
          constructor
          · intro hpn
            rw [hstep]
            rcases List.mem_cons.mp hpn with hps | hpn2
            · have hpp₀ : p = p₀ := hpeq p hp hps
              have hnotn : p.1 ∉ names := by
                rw [hps]
                exact hsnotin
              rw [(ihlk p hp).2 hnotn]
              show recordGet acc.lastKnown p.1 = latestAt p.2 t
              rw [hps, hlkB, hpp₀, hcongr]
            · exact (ihlk p hp).1 hpn2
          · intro hpn
            rw [hstep]
            have hnotn : p.1 ∉ names := fun hc => hpn (List.mem_cons_of_mem s hc)
            exact (ihlk p hp).2 hnotn
      | none =>
        have hlkBs : recordGet acc.lastKnown s = none := by
          rw [hlkB, hlb]
        have hstep : SuperBlock.combineDateFold
            (SuperBlock.valuesByComponentOf componentCurves) t acc (s :: names)
            = SuperBlock.combineDateFold
              (SuperBlock.valuesByComponentOf componentCurves) t acc names := by
          simp only [SuperBlock.combineDateFold, hvget, Option.getD_some, hlook, hlkBs]
        obtain ⟨ihcv, ihval, ihlk⟩ := ih acc
          (fun x hx => hsub x (List.mem_cons_of_mem s hx))
          (List.nodup_cons.mp hnodup).2
          (fun p hp hpn => hlk p hp (List.mem_cons_of_mem s hpn))
          (fun x hx => hfresh x (List.mem_cons_of_mem s hx))
        refine ⟨?_, ?_, ?_⟩
        · rw [hstep, ihcv]
          simp [List.filterMap_cons, hfs, hlb]
        · rw [hstep, ihval]
          simp [hgs, hlb]
        · intro p hp
          constructor
          · intro hpn
            rw [hstep]
            rcases List.mem_cons.mp hpn with hps | hpn2
            · have hpp₀ : p = p₀ := hpeq p hp hps
              have hnotn : p.1 ∉ names := by
                rw [hps]
                exact hsnotin
              rw [(ihlk p hp).2 hnotn]
              rw [hps, hlkB, hpp₀, hcongr]
            · exact (ihlk p hp).1 hpn2
          · intro hpn
            rw [hstep]
            exact (ihlk p hp).2 (fun hc => hpn (List.mem_cons_of_mem s hc))

theorem combineDateStep_spec
    (componentCurves : List (String × List EquityCurveEntry))
    (hkeys : (componentCurves.map (·.1)).Nodup)
    (hnd : ∀ p ∈ componentCurves, (p.2.map (·.date)).Nodup)
    (t B : Timestamp) (hBt : B < t)
    (hgap : ∀ p ∈ componentCurves, ∀ e ∈ p.2, e.date ≤ B ∨ t ≤ e.date)
    (lastKnown : List (String × EquityCurveEntry))
    (hlkB : ∀ p ∈ componentCurves, recordGet lastKnown p.1 = latestAt p.2 B) :
    (SuperBlock.combineDateStep (SuperBlock.valuesByComponentOf componentCurves)
        (componentCurves.map (·.1)) lastKnown t).componentValues
      = componentCurves.filterMap (fun p =>
          (latestAt p.2 t).map (fun e => (p.1, e.accountValue))) ∧
    (SuperBlock.combineDateStep (SuperBlock.valuesByComponentOf componentCurves)
        (componentCurves.map (·.1)) lastKnown t).value
      = (componentCurves.map (fun p =>
          ((latestAt p.2 t).map (·.accountValue)).getD 0)).sum ∧
    (∀ p ∈ componentCurves,
      recordGet (SuperBlock.combineDateStep
          (SuperBlock.valuesByComponentOf componentCurves)
          (componentCurves.map (·.1)) lastKnown t).lastKnown p.1
        = latestAt p.2 t) := by
  obtain ⟨hcv, hval, hlk⟩ := combineDateFold_spec componentCurves hkeys hnd t B hBt hgap
    (componentCurves.map (·.1))
    { componentValues := [], value := 0, marginReq := 0, missing := 0,
      lastKnown := lastKnown }
    (fun s hs => hs)
    hkeys
    (fun p hp _ => hlkB p hp)
    (by intro s _ hc; simp at hc)
  refine ⟨?_, ?_, ?_⟩
  · rw [SuperBlock.combineDateStep, hcv]
    show [] ++ _ = _
    rw [List.nil_append, List.filterMap_map]
    apply List.filterMap_congr
    intro p hp
    simp [Function.comp, recordGet_of_mem_nodup hkeys p hp]
  · rw [SuperBlock.combineDateStep, hval]
    show 0 + _ = _
    rw [zero_add, List.map_map]
    congr 1
    apply List.map_congr_left
    intro p hp
    simp [Function.comp, recordGet_of_mem_nodup hkeys p hp]
  · intro p hp
    rw [SuperBlock.combineDateStep]
    exact (hlk p hp).1 (List.mem_map.mpr ⟨p, hp, rfl⟩)

theorem combineLoop_spec
    (componentCurves : List (String × List EquityCurveEntry))
    (hkeys : (componentCurves.map (·.1)).Nodup)
    (hnd : ∀ p ∈ componentCurves, (p.2.map (·.date)).Nodup) :
    ∀ (ds : List Timestamp) (B : Timestamp)
      (lastKnown : List (String × EquityCurveEntry))
      (acc : List SuperBlock.CombinedEquityCurve),
      ds.Pairwise (· < ·) →
      (∀ t ∈ ds, B < t) →
      (∀ p ∈ componentCurves, ∀ e ∈ p.2, e.date ≤ B ∨ e.date ∈ ds) →
      (∀ p ∈ componentCurves, recordGet lastKnown p.1 = latestAt p.2 B) →
      ∀ q ∈ SuperBlock.combineLoop (SuperBlock.valuesByComponentOf componentCurves)
        (componentCurves.map (·.1)) lastKnown acc ds,
        q ∈ acc ∨
        (q.date ∈ ds ∧
          q.componentValues = componentCurves.filterMap (fun p =>
            (latestAt p.2 q.date).map (fun e => (p.1, e.accountValue))) ∧
          q.combinedAccountValue = (componentCurves.map (fun p =>
            ((latestAt p.2 q.date).map (·.accountValue)).getD 0)).sum) := by
  intro ds
  induction ds with
  | nil =>
    intro B lastKnown acc _ _ _ _ q hq
    rw [SuperBlock.combineLoop] at hq
    exact Or.inl hq
  | cons t rest ih =>
    intro B lastKnown acc hpair hBlt hcover hlkB q hq
    have hBt : B < t := hBlt t (List.mem_cons_self _ _)
    have hgap : ∀ p ∈ componentCurves, ∀ e ∈ p.2, e.date ≤ B ∨ t ≤ e.date := by
      intro p hp e he
      rcases hcover p hp e he with h | h
      · exact Or.inl h
      · rcases List.mem_cons.mp h with heq | h2
        · exact Or.inr (le_of_eq heq.symm)
        · exact Or.inr (le_of_lt ((List.pairwise_cons.mp hpair).1 _ h2))
    obtain ⟨hcv, hval, hlk⟩ := combineDateStep_spec componentCurves hkeys hnd t B hBt
      hgap lastKnown hlkB
    have hpair' := (List.pairwise_cons.mp hpair).2
    have hlt' : ∀ u ∈ rest, t < u := (List.pairwise_cons.mp hpair).1
    have hcover' : ∀ p ∈ componentCurves, ∀ e ∈ p.2, e.date ≤ t ∨ e.date ∈ rest := by
      intro p hp e he
      rcases hcover p hp e he with h | h
      · exact Or.inl (le_trans h (le_of_lt hBt))
      · rcases List.mem_cons.mp h with heq | h2
        · exact Or.inl (le_of_eq heq)
        · exact Or.inr h2
    rw [SuperBlock.combineLoop] at hq
    by_cases hskip : 0 < (SuperBlock.combineDateStep
        (SuperBlock.valuesByComponentOf componentCurves)
        (componentCurves.map (·.1)) lastKnown t).missing ∧ acc.length = 0
    · rw [if_pos hskip] at hq
      rcases ih t _ acc hpair' hlt' hcover' hlk q hq with hin | ⟨hd, hcv2, hval2⟩
      · exact Or.inl hin
      · exact Or.inr ⟨List.mem_cons_of_mem t hd, hcv2, hval2⟩
    · rw [if_neg hskip] at hq
      rcases ih t _ _ hpair' hlt' hcover' hlk q hq with hin | ⟨hd, hcv2, hval2⟩
      · rcases List.mem_append.mp hin with hin1 | hin2
        · exact Or.inl hin1
        · simp only [List.mem_singleton] at hin2
          subst hin2
          refine Or.inr ⟨List.mem_cons_self _ _, ?_, ?_⟩
          · exact hcv
          · exact hval
      · exact Or.inr ⟨List.mem_cons_of_mem t hd, hcv2, hval2⟩

/-- C4: under the `union` alignment strategy every combined point
emitted by `combineSuperBlock` carries, for each component, that
component's most recent observation at or before the point's date
(`latestAt`): a component lacking an observation on an aligned date but
having reported earlier contributes its forward-filled last
`accountValue` to `combinedAccountValue` (and to `componentValues`),
never zero; a component that has never reported contributes nothing. -/
theorem superblock_union_forward_fill (sqrtQ : ℚ → ℚ) (dailyRiskFreeRate : ℚ)
    (components : List SuperBlock.Component)
    (hnd : ∀ p ∈ SuperBlock.componentCurvesOf components, (p.2.map (·.date)).Nodup)
    (data : SuperBlock.SuperBlockData)
    (hok : SuperBlock.combineSuperBlock sqrtQ dailyRiskFreeRate components
      .union = .ok data) :
    ∀ q ∈ data.combinedEquityCurve,
      q.componentValues = (SuperBlock.componentCurvesOf components).filterMap
        (fun p => (latestAt p.2 q.date).map (fun e => (p.1, e.accountValue))) ∧
      q.combinedAccountValue = ((SuperBlock.componentCurvesOf components).map
        (fun p => ((latestAt p.2 q.date).map (·.accountValue)).getD 0)).sum := by
  have hkeys := componentCurvesOf_keys_nodup components
  simp only [SuperBlock.combineSuperBlock] at hok
  by_cases hlen : ((SuperBlock.alignDates
      (SuperBlock.datesByComponentOf (SuperBlock.componentCurvesOf components))
      .union).1).length = 0
  · rw [if_pos hlen] at hok
    exact Except.noConfusion hok
  · rw [if_neg hlen] at hok
    rw [Except.ok.injEq] at hok
    have hA : (SuperBlock.alignDates
        (SuperBlock.datesByComponentOf (SuperBlock.componentCurvesOf components))
        .union).1 = sortedDedupInts
          (((SuperBlock.datesByComponentOf
            (SuperBlock.componentCurvesOf components)).map (·.2)).flatten) := by
      by_cases hc : ((SuperBlock.datesByComponentOf
          (SuperBlock.componentCurvesOf components)).map (·.1)).length = 0
      · exfalso
        apply hlen
        simp [SuperBlock.alignDates, hc]
      · have hne : SuperBlock.datesByComponentOf
            (SuperBlock.componentCurvesOf components) ≠ [] := by
          intro hnil
          apply hc
          rw [hnil]
          rfl
        simp [SuperBlock.alignDates, hc, hne]
    have hpair : ((SuperBlock.alignDates
        (SuperBlock.datesByComponentOf (SuperBlock.componentCurvesOf components))
        .union).1).Pairwise (· < ·) := by
      rw [hA]
      exact sortedDedupInts_pairwise_lt _
    have hmemA : ∀ p ∈ SuperBlock.componentCurvesOf components, ∀ e ∈ p.2,
        e.date ∈ (SuperBlock.alignDates
          (SuperBlock.datesByComponentOf (SuperBlock.componentCurvesOf components))
          .union).1 := by
      intro p hp e he
      rw [hA, mem_sortedDedupInts]
      apply List.mem_flatten.mpr
      refine ⟨List.insertionSort (fun a b : Timestamp => a ≤ b) (p.2.map (·.date)), ?_, ?_⟩
      · apply List.mem_map.mpr
        refine ⟨(p.1, List.insertionSort (fun a b : Timestamp => a ≤ b)
          (p.2.map (·.date))), ?_, rfl⟩
        unfold SuperBlock.datesByComponentOf
        exact List.mem_map.mpr ⟨p, hp, rfl⟩
      · rw [List.mem_insertionSort]
        exact List.mem_map.mpr ⟨e, he, rfl⟩
    cases hAne : (SuperBlock.alignDates
        (SuperBlock.datesByComponentOf (SuperBlock.componentCurvesOf components))
        .union).1 with
    | nil =>
      rw [hAne] at hlen
      exact absurd rfl hlen
    | cons d₀ ds =>
      intro q hq
      rw [← hok] at hq
      have hq2 : q ∈ SuperBlock.combineLoop
          (SuperBlock.valuesByComponentOf (SuperBlock.componentCurvesOf components))
          ((SuperBlock.componentCurvesOf components).map (·.1)) [] []
          (d₀ :: ds) := by
        rw [← hAne]
        exact hq
      rw [hAne] at hpair hmemA
      have hres := combineLoop_spec (SuperBlock.componentCurvesOf components)
        hkeys hnd (d₀ :: ds) (d₀ - 1) [] [] hpair
        (by
          intro u hu
          rcases List.mem_cons.mp hu with rfl | hu2
          · exact sub_one_lt u
          · have hd₀u : d₀ < u := (List.pairwise_cons.mp hpair).1 u hu2
            exact lt_trans (sub_one_lt d₀) hd₀u)
        (fun p hp e he => Or.inr (hmemA p hp e he))
        (by
          intro p hp
          show (none : Option EquityCurveEntry) = latestAt p.2 (d₀ - 1)
          symm
          rw [latestAt_none_iff]
          intro e he hc
          have hmem := hmemA p hp e he
          rcases List.mem_cons.mp hmem with heq | h2
          · rw [heq] at hc
            exact absurd hc (not_le.mpr (sub_one_lt d₀))
          · have hd₀e : d₀ < e.date := (List.pairwise_cons.mp hpair).1 _ h2
            exact absurd hc (not_le.mpr (lt_trans (sub_one_lt d₀) hd₀e)))
        q hq2
      rcases hres with hin | ⟨_, hcv, hval⟩
      · exact absurd hin (List.not_mem_nil q)
      · exact ⟨hcv, hval⟩

/-- Component "A" with observations at dates 1, 2 and 3. -/
def superCompA : SuperBlock.Component :=
  { blockId := "a1", blockName := "A", blockType := .equityCurve, trades := none,
    dailyLogs := none,
    equityCurveEntries := some
      [{ date := 1, dailyReturnPct := 0, marginReq := 0, accountValue := 100,
         strategyName := "A" },
       { date := 2, dailyReturnPct := 0, marginReq := 0, accountValue := 110,
         strategyName := "A" },
       { date := 3, dailyReturnPct := 0, marginReq := 0, accountValue := 120,
         strategyName := "A" }],
    weight := none }

/-- Component "B" with observations at dates 1 and 3 only: date 2 is
missing mid-series and must be forward-filled under `union` alignment. -/
def superCompB : SuperBlock.Component :=
  { blockId := "b1", blockName := "B", blockType := .equityCurve, trades := none,
    dailyLogs := none,
    equityCurveEntries := some
      [{ date := 1, dailyReturnPct := 0, marginReq := 0, accountValue := 50,
         strategyName := "B" },
       { date := 3, dailyReturnPct := 0, marginReq := 0, accountValue := 70,
         strategyName := "B" }],
    weight := none }

/-- The Super-Block produced by combining `superCompA` and `superCompB`
under `union` alignment (total by construction; the error branch of the
match is unreachable for this input). -/
def forwardFillSampleData : SuperBlock.SuperBlockData :=
  match SuperBlock.combineSuperBlock (fun q => q) 0 [superCompA, superCompB]
      .union with
  | .ok d => d
  | .error _ =>
    { combinedEquityCurve := [], portfolioStats := createEmptyStats,
      componentStats := [], dateRangeStart := 0, dateRangeEnd := 0,
      alignmentWarnings := [] }

theorem superblock_union_forward_fill_witness :
    (∀ p ∈ SuperBlock.componentCurvesOf [superCompA, superCompB],
      (p.2.map (·.date)).Nodup) ∧
    (∀ q ∈ forwardFillSampleData.combinedEquityCurve,
      q.componentValues = (SuperBlock.componentCurvesOf
          [superCompA, superCompB]).filterMap
        (fun p => (latestAt p.2 q.date).map (fun e => (p.1, e.accountValue))) ∧
      q.combinedAccountValue = ((SuperBlock.componentCurvesOf
          [superCompA, superCompB]).map
        (fun p => ((latestAt p.2 q.date).map (·.accountValue)).getD 0)).sum) :=
  ⟨by decide,
    superblock_union_forward_fill (fun q => q) 0 [superCompA, superCompB]
      (by decide) forwardFillSampleData
      (by
        unfold forwardFillSampleData
        cases hres : SuperBlock.combineSuperBlock (fun q => q) 0
            [superCompA, superCompB] .union with
        | ok d => rfl
        | error e =>
          exfalso
          simp only [SuperBlock.combineSuperBlock] at hres
          split at hres
          next hcond => exact absurd hcond (by decide)
          next hcond => exact Except.noConfusion hres)⟩

/-- C5 refuted (code bug): `combineSuperBlock` emits a combined
point before the first completely-covered aligned date.  With component
"A" observed only at date 1 and component "B" only at date 2, the `union`
walk's skip guard counts a missing component only when it has a
last-known value, so the never-yet-reported "B" leaves `missingCount` at
0 on date 1 and the first emitted point is at date 1 — carrying only
"A" — although "B" (whose every observation is at date ≥ 2) has no real
observation there, contradicting the code's own "skip until at least one
complete data point" comment and the claim. -/
theorem superblock_emits_point_before_full_coverage :
    ((SuperBlock.combineSuperBlock (fun q => q) 0
        [sampleComponentA, sampleComponentB] .union).map (fun data =>
          data.combinedEquityCurve.map (fun q =>
            (q.date, q.componentValues.map (·.1)))))
      = .ok [(1, ["A"]), (2, ["A", "B"])] ∧
    "B" ∈ (SuperBlock.componentCurvesOf
      [sampleComponentA, sampleComponentB]).map (·.1) ∧
    (∀ p ∈ SuperBlock.componentCurvesOf [sampleComponentA, sampleComponentB],
      p.1 = "B" → ∀ e ∈ p.2, 2 ≤ e.date) :=
  ⟨rfl, by decide, by decide⟩

/-! ## C2 — Super-Block fatal path -/

/-- C2: `combineSuperBlock` raises exactly when the selected alignment
policy produces zero aligned dates, and in particular raises for two
components with no overlapping dates under the `intersection` strategy. -/
theorem combineSuperBlock_raises_iff_zero_aligned_dates :
    (∀ (sqrtQ : ℚ → ℚ) (dailyRiskFreeRate : ℚ)
        (components : List SuperBlock.Component)
        (alignment : SuperBlock.DateAlignmentStrategy),
      (∃ msg, SuperBlock.combineSuperBlock sqrtQ dailyRiskFreeRate components
          alignment = .error msg) ↔
        (SuperBlock.alignDates
          (SuperBlock.datesByComponentOf (SuperBlock.componentCurvesOf components))
          alignment).1 = []) ∧
    SuperBlock.combineSuperBlock (fun q => q) 0 [sampleComponentA, sampleComponentB]
        SuperBlock.DateAlignmentStrategy.intersection =
      .error "No aligned dates found - cannot combine blocks" := by
  constructor
  · intro sqrtQ dailyRiskFreeRate components alignment
    constructor
    · rintro ⟨msg, hmsg⟩
      by_contra hne
      have hlen : ¬ (SuperBlock.alignDates
          (SuperBlock.datesByComponentOf (SuperBlock.componentCurvesOf components))
          alignment).1.length = 0 := by
        simpa [List.length_eq_zero] using hne
      simp [SuperBlock.combineSuperBlock, hlen] at hmsg
    · intro hnil
      refine ⟨"No aligned dates found - cannot combine blocks", ?_⟩
      simp [SuperBlock.combineSuperBlock, hnil]
  · rfl

end EdgeAnalytics
